import Mathlib

/-!
# Verification of the knowledge-base validation / auto-fix / recommendation engine

A shallow embedding, in Lean 4, of the deterministic core of the
`skill-context-system` repository: the frontmatter parser, the Tier-1
per-document validators, the cross-document validators, the auto-fix
engine and the utilization-driven recommendation classifier
(`dewey/skills/health/scripts/{validators,cross_validators,auto_fix,
check_kb,history,utilization}.py` and
`dewey/skills/curate/scripts/templates.py`).

Modelling conventions:
* Python strings are modelled as `List Char` (`Txt`); case mapping and
  whitespace classification are modelled for the ASCII range that the
  code paths exercise.
* The filesystem is modelled as a `KB` record holding the canonical
  two-level layout (area directories with markdown files, root-level
  files, a `_proposals` directory, the curation plan, the manifests and
  the two append-only logs).
* JSON/JSONL serialisation layers (`json.loads` of utilization and
  history lines, the config file) are abstracted: the logs are lists of
  already-decoded records, exactly the data the Python code reads out of
  each line.
* `date.today()` / `datetime.now()` are passed in as explicit fields of
  the state (`today` as a proleptic-Gregorian ordinal, `nowStr` as an
  opaque timestamp string).
* Python `float` arithmetic (Jaccard similarity, median, the readability
  grade, the `0.1` low-utilization factor) is modelled with exact
  rationals; `hashlib.md5` is modelled as an injective fingerprint, i.e.
  paragraphs are grouped by their exact content.
-/

set_option maxRecDepth 10000
set_option maxHeartbeats 1000000

namespace SCS

/-- Python `str` contents, modelled as a list of characters. -/
abbrev Txt := List Char

/-- Build a Lean `String` back from a `Txt`. -/
def txtStr (t : Txt) : String := ⟨t⟩

/-- Characters the embedding treats as Python whitespace (`\s`, `str.strip`):
the ASCII whitespace characters. -/
def pySpace (c : Char) : Bool :=
  c == ' ' || c == '\t' || c == '\n' || c == '\r' || c == '\x0b' || c == '\x0c'

/-- Drop characters satisfying `p` from both ends (Python `str.strip`). -/
def stripWhile (p : Char → Bool) (t : Txt) : Txt :=
  ((t.dropWhile p).reverse.dropWhile p).reverse

/-- Python `str.strip()` (default whitespace). -/
def pyStrip (t : Txt) : Txt := stripWhile pySpace t

/-- Python `str.lstrip()`. -/
def pyLStrip (t : Txt) : Txt := t.dropWhile pySpace

/-- Python `str.rstrip()`. -/
def pyRStrip (t : Txt) : Txt := (t.reverse.dropWhile pySpace).reverse

/-- ASCII lowercasing, the fragment of Python `str.lower` the code exercises. -/
def pyLowerChar (c : Char) : Char :=
  if 65 ≤ c.toNat ∧ c.toNat ≤ 90 then Char.ofNat (c.toNat + 32) else c

/-- Lowercase ASCII letter or digit (`[a-z0-9]`). -/
def isLowerAlnum (c : Char) : Bool :=
  ('a' ≤ c && c ≤ 'z') || ('0' ≤ c && c ≤ '9')

/-! ## `_slugify` (curate/scripts/templates.py)

```python
slug = name.lower().strip()
slug = slug.replace("_", "-")
slug = re.sub(r"[^a-z0-9\s-]", "", slug)
slug = re.sub(r"[\s]+", "-", slug)
slug = re.sub(r"-{2,}", "-", slug)
slug = slug.strip("-")
```
-/

/-- `re.sub(r"[\s]+", "-", ·)`: replace each maximal whitespace run by a
single hyphen.  The flag records whether we are inside a run already
consumed. -/
def squashSpacesAux : Txt → Bool → Txt
  | [], _ => []
  | c :: cs, inRun =>
    if pySpace c then
      if inRun then squashSpacesAux cs true else '-' :: squashSpacesAux cs true
    else c :: squashSpacesAux cs false

def squashSpaces (t : Txt) : Txt := squashSpacesAux t false

/-- `re.sub(r"-{2,}", "-", ·)`: collapse each maximal hyphen run to a single
hyphen (runs of length one are left alone, which is the same thing). -/
def squashHyphensAux : Txt → Bool → Txt
  | [], _ => []
  | c :: cs, inRun =>
    if c == '-' then
      if inRun then squashHyphensAux cs true else '-' :: squashHyphensAux cs true
    else c :: squashHyphensAux cs false

def squashHyphens (t : Txt) : Txt := squashHyphensAux t false

/-- `_slugify` from `curate/scripts/templates.py`, stage by stage. -/
def slugifyTxt (t : Txt) : Txt :=
  let s1 := pyStrip (t.map pyLowerChar)
  let s2 := s1.map (fun c => if c == '_' then '-' else c)
  let s3 := s2.filter (fun c => isLowerAlnum c || pySpace c || c == '-')
  let s4 := squashSpaces s3
  let s5 := squashHyphens s4
  stripWhile (fun c => c == '-') s5

def slugify (s : String) : String := txtStr (slugifyTxt s.data)

/-- Characterisation of `_slugify` output: only lowercase alphanumerics and
hyphens, no two adjacent hyphens, no hyphen at either end. -/
def noDoubleHyphen : Txt → Bool
  | [] => true
  | [_] => true
  | a :: b :: rest => !(a == '-' && b == '-') && noDoubleHyphen (b :: rest)

def isSlugForm (t : Txt) : Bool :=
  t.all (fun c => isLowerAlnum c || c == '-') &&
  noDoubleHyphen t &&
  (match t.head? with | some c => !(c == '-') | Option.none => true) &&
  (match t.getLast? with | some c => !(c == '-') | Option.none => true)

/-! ## General text utilities -/

/-- Shorthand: the character content of a string literal. -/
def T (s : String) : Txt := s.data

/-- Python `str.split(sep)` for a one-character separator. -/
def splitOnCharAux (sep : Char) : Txt → Txt → List Txt
  | [], acc => [acc.reverse]
  | c :: cs, acc =>
    if c == sep then acc.reverse :: splitOnCharAux sep cs []
    else splitOnCharAux sep cs (c :: acc)

def splitOnChar (sep : Char) (t : Txt) : List Txt := splitOnCharAux sep t []

/-- Python `text.split("\n")`. -/
def linesOf (t : Txt) : List Txt := splitOnChar '\n' t

/-- Python `sep.join(pieces)`. -/
def joinWith (sep : Txt) : List Txt → Txt
  | [] => []
  | [x] => x
  | x :: y :: rest => x ++ sep ++ joinWith sep (y :: rest)

/-- Python `"\n".join(lines)`. -/
def joinLines (l : List Txt) : Txt := joinWith ['\n'] l

/-- Python substring test `needle in hay`. -/
def hasSub : Txt → Txt → Bool
  | hay, needle =>
    match hay with
    | [] => needle.isEmpty
    | _ :: cs => List.isPrefixOf needle hay || hasSub cs needle

/-- Python `len(text.splitlines())`, for `\n`-separated text. -/
def splitlinesCount (t : Txt) : Nat :=
  match t with
  | [] => 0
  | _ =>
    (t.countP (fun c => c == '\n')) +
      (if t.getLastD ' ' == '\n' then 0 else 1)

def lowerTxt (t : Txt) : Txt := t.map pyLowerChar

/-- `[A-Za-z0-9_]`, Python's `\w` over ASCII. -/
def isWordChar (c : Char) : Bool :=
  (65 ≤ c.toNat && c.toNat ≤ 90) || (97 ≤ c.toNat && c.toNat ≤ 122) ||
  (48 ≤ c.toNat && c.toNat ≤ 57) || c.toNat == 95

def isDigit (c : Char) : Bool := 48 ≤ c.toNat && c.toNat ≤ 57

def isAsciiLetter (c : Char) : Bool :=
  (65 ≤ c.toNat && c.toNat ≤ 90) || (97 ≤ c.toNat && c.toNat ≤ 122)

/-- Decimal rendering of a natural number (Python `str(n)`). -/
def natTxt (n : Nat) : Txt := Nat.toDigits 10 n

/-- Decimal rendering of an integer (Python `str(i)`). -/
def intTxt (i : Int) : Txt :=
  if i < 0 then '-' :: natTxt i.natAbs else natTxt i.natAbs

/-- `runsOfP p` — the maximal runs of `p`-characters (`re.findall` of a
character-class `+` pattern). -/
def runsOfP (p : Char → Bool) : Txt → Txt → List Txt
  | [], acc => if acc.isEmpty then [] else [acc.reverse]
  | c :: cs, acc =>
    if p c then runsOfP p cs (c :: acc)
    else if acc.isEmpty then runsOfP p cs []
    else acc.reverse :: runsOfP p cs []

/-- Round-half-even to an integer (CPython float formatting's rounding). -/
def halfEvenRound (q : ℚ) : Int :=
  let f : Int := Rat.floor q
  let frac := q - (f : ℚ)
  if frac < (1 : ℚ)/2 then f
  else if (1 : ℚ)/2 < frac then f + 1
  else if f % 2 == 0 then f else f + 1


/-- Code-point lexicographic `<` on text (Python string comparison). -/
def txtLtB : Txt → Txt → Bool
  | [], [] => false
  | [], _ :: _ => true
  | _ :: _, [] => false
  | a :: as, b :: bs =>
    if a.toNat < b.toNat then true
    else if b.toNat < a.toNat then false
    else txtLtB as bs

def txtLeB (a b : Txt) : Bool := !(txtLtB b a)

/-- Stable insertion sort; agrees with Python `sorted` for a total preorder. -/
def insertLe {α : Type} (le : α → α → Bool) (x : α) : List α → List α
  | [] => [x]
  | y :: ys => if le x y then x :: y :: ys else y :: insertLe le x ys

def sortLe {α : Type} (le : α → α → Bool) (l : List α) : List α :=
  l.foldr (insertLe le) []

def sortTxts (l : List Txt) : List Txt := sortLe txtLeB l

/-- Python `min(iterable)` (first minimum) over text. -/
def txtListMin : Txt → List Txt → Txt
  | cur, [] => cur
  | cur, x :: xs => txtListMin (if txtLtB x cur then x else cur) xs

/-- Python `max(iterable)` (first maximum) over text. -/
def txtListMax : Txt → List Txt → Txt
  | cur, [] => cur
  | cur, x :: xs => txtListMax (if txtLtB cur x then x else cur) xs

/-! ## Insertion-ordered dictionaries (Python `dict`) -/

def alGet {α : Type} (m : List (Txt × α)) (k : Txt) : Option α :=
  match m with
  | [] => Option.none
  | (k2, v) :: rest => if k2 == k then some v else alGet rest k

def alSet {α : Type} (m : List (Txt × α)) (k : Txt) (v : α) : List (Txt × α) :=
  match m with
  | [] => [(k, v)]
  | (k2, v2) :: rest =>
    if k2 == k then (k2, v) :: rest else (k2, v2) :: alSet rest k v

def alHas {α : Type} (m : List (Txt × α)) (k : Txt) : Bool :=
  (alGet m k).isSome

def alKeys {α : Type} (m : List (Txt × α)) : List Txt := m.map Prod.fst

/-! ## Frontmatter parser (`validators.parse_frontmatter`) -/

inductive FMVal where
  | vstr (t : Txt)
  | vnone
  | vlist (items : List Txt)
deriving DecidableEq, Repr

/-- A frontmatter delimiter line: `line.strip() == "---"`. -/
def isDelim (l : Txt) : Bool := pyStrip l == ['-', '-', '-']

/-- The lines after the first delimiter line, if one exists. -/
def splitAtDelim : List Txt → Option (List Txt)
  | [] => Option.none
  | l :: ls => if isDelim l then some ls else splitAtDelim ls

/-- The lines strictly between the first two delimiter lines, if both exist. -/
def fmLines (lines : List Txt) : Option (List Txt) :=
  match splitAtDelim lines with
  | Option.none => Option.none
  | some rest =>
    if rest.any isDelim then some (rest.takeWhile (fun l => !isDelim l))
    else Option.none

/-- Regex `^\s+-\s+(.+)$` (a frontmatter list item); returns group 1. -/
def matchListItem (line : Txt) : Option Txt :=
  if (line.takeWhile pySpace).isEmpty then Option.none
  else
    match line.dropWhile pySpace with
    | '-' :: r2 =>
      match r2 with
      | [] => Option.none
      | c :: rest2 =>
        if pySpace c then
          if rest2.isEmpty then Option.none
          else
            let d := r2.dropWhile pySpace
            some (if d.isEmpty then [r2.getLastD ' '] else d)
        else Option.none
    | _ => Option.none

/-- Regex `^(\w[\w_]*):\s*(.*)$` (a key/value line); returns the key and
group 2 (the raw value, before the caller's `.strip()`). -/
def matchKV (line : Txt) : Option (Txt × Txt) :=
  let key := line.takeWhile isWordChar
  if key.isEmpty then Option.none
  else
    match line.dropWhile isWordChar with
    | ':' :: rest => some (key, rest.dropWhile pySpace)
    | _ => Option.none

structure FMState where
  dict : List (Txt × FMVal)
  currentKey : Option Txt

def fmStep (st : FMState) (line : Txt) : FMState :=
  match matchListItem line with
  | some item =>
    match st.currentKey with
    | some k =>
      let base :=
        match alGet st.dict k with
        | some (FMVal.vlist l) => l
        | _ => []
      { st with dict := alSet st.dict k (FMVal.vlist (base ++ [pyStrip item])) }
    | Option.none => st
  | Option.none =>
    match matchKV line with
    | some (k, v0) =>
      let v := pyStrip v0
      { dict := alSet st.dict k (if v.isEmpty then FMVal.vnone else FMVal.vstr v),
        currentKey := some k }
    | Option.none => st

def parseFMLines (lines : List Txt) : List (Txt × FMVal) :=
  match fmLines lines with
  | Option.none => []
  | some fl => (fl.foldl fmStep ⟨[], Option.none⟩).dict

/-- `parse_frontmatter`, as a function of the document text. -/
def parseFM (t : Txt) : List (Txt × FMVal) := parseFMLines (linesOf t)

def fmGet (fm : List (Txt × FMVal)) (k : Txt) : Option FMVal := alGet fm k

/-- Python truthiness of a `.get(key)` result (`None` for missing). -/
def fmTruthy : Option FMVal → Bool
  | Option.none => false
  | some FMVal.vnone => false
  | some (FMVal.vstr t) => !t.isEmpty
  | some (FMVal.vlist l) => !l.isEmpty

/-- Naive `repr` for a decoded frontmatter scalar, used only inside issue
messages (Python renders list values with single-quoted items). -/
def pyReprItem (t : Txt) : Txt := '\x27' :: (t ++ ['\x27'])

/-- Python `str(value)` / f-string interpolation of a frontmatter value. -/
def fmValPyStr : FMVal → Txt
  | FMVal.vstr t => t
  | FMVal.vnone => T ("None")
  | FMVal.vlist l => '[' :: (joinWith [',', ' '] (l.map pyReprItem) ++ [']'])

/-- `fm.get("depth")` viewed as the string it is compared against. -/
def fmDepth (fm : List (Txt × FMVal)) : Option FMVal := fmGet fm (T ("depth"))

def depthIs (fm : List (Txt × FMVal)) (d : String) : Bool :=
  fmDepth fm == some (FMVal.vstr (T d))

/-! ## Body / section helpers (`validators.py`) -/

/-- `_body_without_frontmatter`. -/
def bodyWithoutFM (t : Txt) : Txt :=
  let lines := linesOf t
  match splitAtDelim lines with
  | Option.none => t
  | some rest =>
    match splitAtDelim rest with
    | Option.none => t
    | some rest2 => joinLines rest2

/-- The backtick character (written by code point to keep source plain). -/
def btick : Char := Char.ofNat 96

/-- `_strip_fenced_code_blocks`. -/
def stripFencedAux : List Txt → Bool → List Txt
  | [], _ => []
  | l :: ls, inFence =>
    if List.isPrefixOf [btick, btick, btick] (pyStrip l) then
      [] :: stripFencedAux ls (!inFence)
    else if inFence then [] :: stripFencedAux ls inFence
    else l :: stripFencedAux ls inFence

def stripFenced (t : Txt) : Txt := joinLines (stripFencedAux (linesOf t) false)

/-- `_extract_section` body scan; accumulates captured lines reversed. -/
def extractSectionAux (headingL : Txt) : List Txt → Bool → List Txt → Option (List Txt)
  | [], capturing, acc =>
    if acc.isEmpty && !capturing then Option.none else some acc.reverse
  | l :: ls, capturing, acc =>
    if List.isPrefixOf ['#', '#', ' '] l then
      if capturing then some acc.reverse
      else
        let ht := pyStrip (l.drop 3)
        if hasSub (lowerTxt ht) headingL then extractSectionAux headingL ls true acc
        else extractSectionAux headingL ls false acc
    else if capturing then extractSectionAux headingL ls true (l :: acc)
    else extractSectionAux headingL ls false acc

/-- `_extract_section(body, heading)`. -/
def extractSection (body : Txt) (heading : Txt) : Option Txt :=
  (extractSectionAux (lowerTxt heading) (linesOf body) false []).map joinLines

/-- Regex `^##\s+(.+)$` applied per line (`re.MULTILINE` findall): the
captured heading texts. -/
def matchH2 (line : Txt) : Option Txt :=
  match line with
  | '#' :: '#' :: rest =>
    if (rest.takeWhile pySpace).isEmpty then Option.none
    else
      let content := rest.dropWhile pySpace
      if content.isEmpty then Option.none else some content
  | _ => Option.none

def findH2s (t : Txt) : List Txt := (linesOf t).filterMap matchH2

/-! ## Dates (`datetime.date` / `datetime.datetime`) -/

def isLeap (y : Nat) : Bool := (y % 4 == 0 && y % 100 != 0) || y % 400 == 0

def daysInMonth (y m : Nat) : Nat :=
  if m == 2 then (if isLeap y then 29 else 28)
  else if m == 4 || m == 6 || m == 9 || m == 11 then 30
  else 31

def daysBeforeMonth (m : Nat) : Nat :=
  match m with
  | 1 => 0 | 2 => 31 | 3 => 59 | 4 => 90 | 5 => 120 | 6 => 151
  | 7 => 181 | 8 => 212 | 9 => 243 | 10 => 273 | 11 => 304 | 12 => 334
  | _ => 0

/-- `date(y, 1, 1).toordinal() - 1`. -/
def daysBeforeYear (y : Nat) : Nat :=
  365 * (y - 1) + (y - 1) / 4 - (y - 1) / 100 + (y - 1) / 400

/-- Python `date(y, m, d).toordinal()`. -/
def dateOrdinal (y m d : Nat) : Nat :=
  daysBeforeYear y + daysBeforeMonth m + (if 2 < m && isLeap y then 1 else 0) + d

structure YMD where
  y : Nat
  m : Nat
  d : Nat
deriving DecidableEq

def digitVal (c : Char) : Nat := c.toNat - 48

def digitsVal (l : Txt) : Nat := l.foldl (fun a c => 10 * a + digitVal c) 0

/-- `date.fromisoformat`, for the zero-padded `YYYY-MM-DD` calendar form the
system reads and writes (other accepted spellings are out of the modelled
grammar and behave as a parse failure). -/
def parseISODate (t : Txt) : Option YMD :=
  match t with
  | [y1, y2, y3, y4, '-', m1, m2, '-', d1, d2] =>
    if [y1, y2, y3, y4, m1, m2, d1, d2].all isDigit then
      let y := digitsVal [y1, y2, y3, y4]
      let m := digitsVal [m1, m2]
      let d := digitsVal [d1, d2]
      if 1 ≤ y && 1 ≤ m && m ≤ 12 && 1 ≤ d && d ≤ daysInMonth y m then
        some ⟨y, m, d⟩
      else Option.none
    else Option.none
  | _ => Option.none

structure DT where
  y : Nat
  m : Nat
  d : Nat
  h : Nat
  mi : Nat
  s : Nat
deriving DecidableEq

/-- `datetime.fromisoformat`, for the forms the utilization log holds:
`YYYY-MM-DD` and `YYYY-MM-DDTHH:MM:SS` (the writer uses
`isoformat(timespec="seconds")`). -/
def parseISODateTime (t : Txt) : Option DT :=
  match t with
  | [y1, y2, y3, y4, '-', m1, m2, '-', d1, d2] =>
    (parseISODate [y1, y2, y3, y4, '-', m1, m2, '-', d1, d2]).map
      (fun x => ⟨x.y, x.m, x.d, 0, 0, 0⟩)
  | [y1, y2, y3, y4, '-', m1, m2, '-', d1, d2, 'T', h1, h2, ':', i1, i2, ':', s1, s2] =>
    match parseISODate [y1, y2, y3, y4, '-', m1, m2, '-', d1, d2] with
    | Option.none => Option.none
    | some x =>
      if [h1, h2, i1, i2, s1, s2].all isDigit then
        let h := digitsVal [h1, h2]
        let mi := digitsVal [i1, i2]
        let s := digitsVal [s1, s2]
        if h ≤ 23 && mi ≤ 59 && s ≤ 59 then some ⟨x.y, x.m, x.d, h, mi, s⟩
        else Option.none
      else Option.none
  | _ => Option.none

/-- Seconds since the proleptic epoch of `dateOrdinal`. -/
def dtSec (x : DT) : Nat :=
  86400 * dateOrdinal x.y x.m x.d + 3600 * x.h + 60 * x.mi + x.s

/-- `(fromisoformat b - fromisoformat a).days`, with the code's
`except ValueError: day_span = 0` fallback. -/
def daySpan (a b : Txt) : Int :=
  match parseISODateTime a, parseISODateTime b with
  | some da, some db => Int.fdiv ((dtSec db : Int) - (dtSec da : Int)) 86400
  | _, _ => 0

/-! ## Issues -/

structure Issue where
  file : Txt
  message : Txt
  severity : Txt
deriving DecidableEq, Repr

def sevFail : Txt := T ("fail")
def sevWarn : Txt := T ("warn")

def mkIssue (f m s : Txt) : Issue := ⟨f, m, s⟩

/-! ## Validator constants (`validators.py`) -/

def WORKING_SECTIONS : List Txt :=
  [T ("Why This Matters"), T ("In Practice"), T ("Key Guidance"),
   T ("Watch Out For"), T ("Go Deeper")]

def OVERVIEW_SECTIONS : List Txt :=
  [T ("What This Covers"), T ("How It\x27s Organized")]

/-- `sorted(_VALID_DEPTHS)` as rendered inside the invalid-depth message. -/
def validDepthsRendered : Txt :=
  T ("[\x27overview\x27, \x27reference\x27, \x27working\x27]")

def isValidDepth (v : FMVal) : Bool :=
  v == FMVal.vstr (T ("overview")) || v == FMVal.vstr (T ("working")) ||
  v == FMVal.vstr (T ("reference"))

/-- `Path(name).stem`: the file name without its final suffix. -/
def pyStem (fname : Txt) : Txt :=
  let rev := fname.reverse
  match rev.dropWhile (fun c => !(c == '.')) with
  | '.' :: rest => if rest.isEmpty then fname else rest.reverse
  | _ => fname

def endsWithTxt (t suf : Txt) : Bool := List.isSuffixOf suf t

def startsWithChar (t : Txt) (c : Char) : Bool := t.head? == some c

def isRefName (fname : Txt) : Bool := endsWithTxt fname (T (".ref.md"))

/-- Stem of a `.ref.md` file name: `name[:-len(".ref.md")]`. -/
def refStem (fname : Txt) : Txt := fname.take (fname.length - 7)

/-! ## Per-document validators (`validators.py`) -/

/-- `check_frontmatter`. -/
def checkFrontmatter (name text : Txt) : List Issue :=
  let fm := parseFM text
  if fm.isEmpty then [mkIssue name (T ("Missing frontmatter")) sevFail]
  else
    let req := [T ("sources"), T ("last_validated"), T ("relevance"), T ("depth")]
    let missing := req.filterMap (fun field =>
      let bad :=
        match fmGet fm field with
        | Option.none => true
        | some FMVal.vnone => true
        | some (FMVal.vstr t) => t.isEmpty
        | some (FMVal.vlist _) => false
      if bad then
        some (mkIssue name (T ("Missing required frontmatter field: ") ++ field) sevFail)
      else Option.none)
    let srcEmpty :=
      match fmGet fm (T ("sources")) with
      | some (FMVal.vlist l) =>
        if l.isEmpty then
          [mkIssue name (T ("Missing required frontmatter field: sources")) sevFail]
        else []
      | _ => []
    let depthBad :=
      match fmGet fm (T ("depth")) with
      | some v =>
        if fmTruthy (some v) && !isValidDepth v then
          [mkIssue name
            (T ("Invalid depth \x27") ++ fmValPyStr v ++
             T ("\x27; must be one of ") ++ validDepthsRendered) sevFail]
        else []
      | Option.none => []
    missing ++ srcEmpty ++ depthBad

/-- `check_section_ordering`. -/
def checkSectionOrdering (name text : Txt) : List Issue :=
  let fm := parseFM text
  if !(depthIs fm "working") then []
  else
    let headings := findH2s text
    let ip := headings.findIdx? (fun h => hasSub h (T ("In Practice")))
    let kg := headings.findIdx? (fun h => hasSub h (T ("Key Guidance")))
    match ip, kg with
    | some i, some k =>
      if k < i then
        [mkIssue name
          (T ("\x27In Practice\x27 must appear before \x27Key Guidance\x27 (concrete before abstract)"))
          sevWarn]
      else []
    | _, _ => []

/-- Regex `\[([^\]]*)\]\(([^)]+)\)` — `re.findall` of markdown links.
Fuel-indexed left-to-right scan (the fuel, initialised to the text length,
bounds the number of scanning steps and never runs out, since every step
consumes at least one character). -/
def findLinksF : Nat → Txt → List (Txt × Txt)
  | 0, _ => []
  | Nat.succ n, t =>
    match t with
    | [] => []
    | c :: cs =>
      if c == '[' then
        let txtPart := cs.takeWhile (fun d => !(d == ']'))
        let rest1 := cs.dropWhile (fun d => !(d == ']'))
        match rest1 with
        | ']' :: '(' :: rest2 =>
          let tgt := rest2.takeWhile (fun d => !(d == ')'))
          let rest3 := rest2.dropWhile (fun d => !(d == ')'))
          match rest3 with
          | ')' :: rest4 =>
            if tgt.isEmpty then findLinksF n cs
            else (txtPart, tgt) :: findLinksF n rest4
          | _ => findLinksF n cs
        | _ => findLinksF n cs
      else findLinksF n cs

def findLinks (t : Txt) : List (Txt × Txt) := findLinksF t.length t

/-- Python `target.startswith(("http://", "https://", "#", "mailto:"))`. -/
def isExternalTarget (t : Txt) : Bool :=
  List.isPrefixOf (T ("http://")) t || List.isPrefixOf (T ("https://")) t ||
  List.isPrefixOf (T ("#")) t || List.isPrefixOf (T ("mailto:")) t

/-! ## Knowledge-base state

The filesystem tree the engine walks, in its canonical two-level layout:
a knowledge directory holding area directories of `.md` files plus
root-level `.md` files (such as `index.md`), a `_proposals` directory,
the curation plan under `.dewey/`, the two manifests at the root, and the
two append-only logs (with their JSONL decoding abstracted away: each
stored record carries exactly the fields the Python code reads).
`today` is `date.today().toordinal()`; `nowStr` is the
`datetime.now().isoformat(timespec="seconds")` value used when a snapshot
is appended. -/

structure KDoc where
  fname : Txt
  text : Txt
deriving DecidableEq, Repr

structure AreaDir where
  aname : Txt
  files : List KDoc
deriving DecidableEq, Repr

structure HealthSummary where
  totalFiles : Nat
  failCount : Nat
  warnCount : Nat
  passCount : Nat
deriving DecidableEq, Repr

structure Snapshot where
  timestamp : Txt
  tier1 : Option HealthSummary
  fileList : List Txt
deriving DecidableEq, Repr

structure UtilEvent where
  file : Txt
  timestamp : Txt
deriving DecidableEq, Repr

structure KB where
  kdirName : Txt
  areas : List AreaDir
  rootFiles : List KDoc
  proposals : List KDoc
  plan : Option Txt
  agents : Option Txt
  claude : Option Txt
  history : List Snapshot
  util : List UtilEvent
  today : Nat
  nowStr : Txt
deriving DecidableEq, Repr

def areaNamed (kb : KB) (a : Txt) : Option AreaDir :=
  kb.areas.find? (fun ad => ad.aname == a)

def areaFile (ad : AreaDir) (f : Txt) : Option KDoc :=
  ad.files.find? (fun d => d.fname == f)

def rootFile (kb : KB) (f : Txt) : Option KDoc :=
  kb.rootFiles.find? (fun d => d.fname == f)

def propFile (kb : KB) (f : Txt) : Option KDoc :=
  kb.proposals.find? (fun d => d.fname == f)

/-- Directory existence in the modelled tree (components relative to the
knowledge-base root). -/
def kbIsDir (kb : KB) (comps : List Txt) : Bool :=
  match comps with
  | [] => true
  | [c] => c == kb.kdirName || c == T (".dewey")
  | [c, a] =>
    c == kb.kdirName &&
      ((areaNamed kb a).isSome || (a == T ("_proposals") && !kb.proposals.isEmpty))
  | _ => false

/-- File existence in the modelled tree. -/
def kbIsFile (kb : KB) (comps : List Txt) : Bool :=
  match comps with
  | [c] =>
    (c == T ("AGENTS.md") && kb.agents.isSome) ||
    (c == T ("CLAUDE.md") && kb.claude.isSome)
  | [c, f] =>
    (c == kb.kdirName && (rootFile kb f).isSome) ||
    (c == T (".dewey") && f == T ("curation-plan.md") && kb.plan.isSome)
  | [c, a, f] =>
    c == kb.kdirName &&
      ((match areaNamed kb a with
        | some ad => (areaFile ad f).isSome
        | Option.none => false) ||
       (a == T ("_proposals") && (propFile kb f).isSome))
  | _ => false

def kbExists (kb : KB) (comps : List Txt) : Bool :=
  kbIsDir kb comps || kbIsFile kb comps

/-- `(base / target).resolve()` over root-relative components; `Option.none`
models an absolute target, which lies outside the modelled tree. -/
def resolveComps (base : List Txt) (target : Txt) : Option (List Txt) :=
  if target.head? == some '/' then Option.none
  else
    some ((splitOnChar '/' target).foldl
      (fun acc comp =>
        if comp.isEmpty || comp == ['.'] then acc
        else if comp == ['.', '.'] then acc.dropLast
        else acc ++ [comp])
      base)

/-- `str(path)` for a root-relative component list (the root is rendered as
`kb`, standing for the absolute knowledge-base root). -/
def pathOf (comps : List Txt) : Txt := joinWith ['/'] (T ("kb") :: comps)

/-- A path relative to the knowledge directory (`area/topic.md`). -/
def relOf (comps : List Txt) : Txt := joinWith ['/'] comps

/-- `check_cross_references`. -/
def checkCrossReferences (kb : KB) (name text : Txt) (parent : List Txt) : List Issue :=
  (findLinks text).filterMap (fun lk =>
    let target := pyStrip lk.2
    if isExternalTarget target then Option.none
    else
      let targetPath := (splitOnChar '#' target).headD []
      if targetPath.isEmpty then Option.none
      else
        let ok :=
          match resolveComps parent targetPath with
          | some rc => kbExists kb rc
          | Option.none => false
        if ok then Option.none
        else some (mkIssue name (T ("Broken internal link: ") ++ targetPath) sevWarn))

/-- `_SIZE_BOUNDS[depth]`, when `depth` is a key. -/
def sizeBoundsFor (v : Option FMVal) : Option (Nat × Nat × Txt) :=
  match v with
  | some (FMVal.vstr d) =>
    if d == T ("overview") then some (5, 150, d)
    else if d == T ("working") then some (10, 400, d)
    else if d == T ("reference") then some (3, 150, d)
    else Option.none
  | _ => Option.none

/-- `check_size_bounds`. -/
def checkSizeBounds (name text : Txt) : List Issue :=
  match sizeBoundsFor (fmDepth (parseFM text)) with
  | Option.none => []
  | some (lo, hi, d) =>
    let n := splitlinesCount text
    if n < lo then
      [mkIssue name
        (T ("File has ") ++ natTxt n ++ T (" lines; expected at least ") ++
         natTxt lo ++ T (" for depth \x27") ++ d ++ T ("\x27")) sevWarn]
    else if n > hi then
      [mkIssue name
        (T ("File has ") ++ natTxt n ++ T (" lines; expected at most ") ++
         natTxt hi ++ T (" for depth \x27") ++ d ++ T ("\x27")) sevWarn]
    else []

/-- `check_source_urls`. -/
def checkSourceUrls (name text : Txt) : List Issue :=
  match fmGet (parseFM text) (T ("sources")) with
  | some (FMVal.vlist entries) =>
    entries.filterMap (fun entry =>
      let url0 := pyStrip entry
      let url :=
        if List.isPrefixOf (T ("url:")) url0 then pyStrip (url0.drop 4) else url0
      if hasSub url (T ("<!--")) then Option.none
      else if List.isPrefixOf (T ("http://")) url || List.isPrefixOf (T ("https://")) url then
        Option.none
      else some (mkIssue name (T ("Malformed source URL: ") ++ url) sevFail))
  | _ => []

/-- `check_freshness` (with `date.today()` passed in as an ordinal). -/
def checkFreshness (today : Nat) (maxAgeDays : Int) (name text : Txt) : List Issue :=
  let lv := fmGet (parseFM text) (T ("last_validated"))
  if !fmTruthy lv then []
  else
    let rendered := fmValPyStr ((lv).getD FMVal.vnone)
    match parseISODate rendered with
    | Option.none =>
      [mkIssue name (T ("Invalid last_validated date: ") ++ rendered) sevWarn]
    | some ymd =>
      let age : Int := (today : Int) - (dateOrdinal ymd.y ymd.m ymd.d : Int)
      if age > maxAgeDays then
        [mkIssue name
          (T ("Content is ") ++ intTxt age ++ T (" days old (max ") ++
           intTxt maxAgeDays ++ T ("); needs re-validation")) sevWarn]
      else []

/-- `check_section_completeness`. -/
def checkSectionCompleteness (name text : Txt) : List Issue :=
  let fm := parseFM text
  if depthIs fm "working" || depthIs fm "overview" then
    let expected := if depthIs fm "working" then WORKING_SECTIONS else OVERVIEW_SECTIONS
    let headingLower := (findH2s text).map lowerTxt
    expected.filterMap (fun sec =>
      if headingLower.any (fun h => hasSub h (lowerTxt sec)) then Option.none
      else some (mkIssue name (T ("Missing required section: ") ++ sec) sevWarn))
  else if depthIs fm "reference" then
    if (pyStrip (bodyWithoutFM text)).isEmpty then
      [mkIssue name (T ("Reference file has no content after frontmatter")) sevWarn]
    else []
  else []

/-- Regex `^(#{1,6})\s+` per line: the heading level, if the line is a heading. -/
def headingLevel (line : Txt) : Option Nat :=
  let r := line.takeWhile (fun c => c == '#')
  if 1 ≤ r.length && r.length ≤ 6 then
    match line.drop r.length with
    | c :: _ => if pySpace c then some r.length else Option.none
    | [] => Option.none
  else Option.none

/-- `check_heading_hierarchy`. -/
def checkHeadingHierarchy (name text : Txt) : List Issue :=
  let body := stripFenced (bodyWithoutFM text)
  let levels := (linesOf body).filterMap headingLevel
  let h1Count := levels.count 1
  let h1Issues :=
    if h1Count == 0 then [mkIssue name (T ("No H1 heading found")) sevWarn]
    else if h1Count > 1 then
      [mkIssue name
        (T ("Multiple H1 headings found (") ++ natTxt h1Count ++
         T ("); expected exactly 1")) sevWarn]
    else []
  let skips := (levels.zip levels.tail).filterMap (fun p =>
    if p.2 > p.1 + 1 then
      some (mkIssue name
        (T ("Skipped heading level: H") ++ natTxt p.1 ++ T (" to H") ++ natTxt p.2)
        sevWarn)
    else Option.none)
  h1Issues ++ skips

/-- `check_go_deeper_links`. -/
def checkGoDeeperLinks (name fname text : Txt) : List Issue :=
  if isRefName fname then []
  else if !(depthIs (parseFM text) "working") then []
  else
    match extractSection (bodyWithoutFM text) (T ("Go Deeper")) with
    | Option.none => []
    | some sec =>
      let refName := pyStem fname ++ T (".ref.md")
      let missingRef :=
        if !hasSub sec refName then
          [mkIssue name
            (T ("Go Deeper section missing link to companion ") ++ refName) sevWarn]
        else []
      let missingExt :=
        if !(hasSub sec (T ("http://")) || hasSub sec (T ("https://"))) then
          [mkIssue name (T ("Go Deeper section missing external link")) sevWarn]
        else []
      missingRef ++ missingExt

/-- One step of the case-insensitive `see\s+also` search: does the pattern
match at the head of this (already lowercased) text? -/
def seeAlsoAt (t : Txt) : Bool :=
  match t with
  | 's' :: 'e' :: 'e' :: rest =>
    if (rest.takeWhile pySpace).isEmpty then false
    else List.isPrefixOf (T ("also")) (rest.dropWhile pySpace)
  | _ => false

def seeAlsoScan : Txt → Bool
  | [] => false
  | c :: cs => seeAlsoAt (c :: cs) || seeAlsoScan cs

/-- `re.search(r"see\s+also", body, re.IGNORECASE)`. -/
def seeAlsoSearch (t : Txt) : Bool := seeAlsoScan (lowerTxt t)

/-- `check_ref_see_also`. -/
def checkRefSeeAlso (name fname text : Txt) : List Issue :=
  if !isRefName fname then []
  else
    let body := bodyWithoutFM text
    if !seeAlsoSearch body then
      [mkIssue name (T ("Reference file missing \x27See also\x27 section")) sevWarn]
    else
      let companion := refStem fname ++ T (".md")
      if !hasSub body companion then
        [mkIssue name
          (T ("See also section missing link to companion ") ++ companion) sevWarn]
      else []

/-! ## Readability (`check_readability` and helpers)

The regex substitution passes of `_strip_markdown_formatting` are modelled as
fuel-indexed left-to-right scans (each step consumes at least one character,
so fuel initialised to the text length never runs out); non-greedy `(.+?)`
captures are the shortest nonempty newline-free inner texts. -/

/-- First occurrence of the two-character closer `[a, b]` (inner text may not
contain a newline, as `.` does not match one); returns (before, after). -/
def scanClose2 (a b : Char) : Txt → Option (Txt × Txt)
  | [] => Option.none
  | c :: cs =>
    if c == '\n' then Option.none
    else if c == a && cs.head? == some b then some ([], cs.tail)
    else (scanClose2 a b cs).map (fun p => (c :: p.1, p.2))

/-- As `scanClose2`, but forcing at least one inner character. -/
def close2From (a b : Char) : Txt → Option (Txt × Txt)
  | [] => Option.none
  | c :: cs =>
    if c == '\n' then Option.none
    else (scanClose2 a b cs).map (fun p => (c :: p.1, p.2))

def scanClose1NL (a : Char) : Txt → Option (Txt × Txt)
  | [] => Option.none
  | c :: cs =>
    if c == '\n' then Option.none
    else if c == a then some ([], cs)
    else (scanClose1NL a cs).map (fun p => (c :: p.1, p.2))

def close1From (a : Char) : Txt → Option (Txt × Txt)
  | [] => Option.none
  | c :: cs =>
    if c == '\n' then Option.none
    else (scanClose1NL a cs).map (fun p => (c :: p.1, p.2))

/-- Closing `_` of `(?<!\w)_(.+?)_(?!\w)`: the first `_` whose following
character is not a word character. -/
def undScan : Txt → Option (Txt × Txt)
  | [] => Option.none
  | c :: cs =>
    if c == '\n' then Option.none
    else if c == '_' && (match cs with | [] => true | d :: _ => !isWordChar d) then
      some ([], cs)
    else (undScan cs).map (fun p => (c :: p.1, p.2))

def undFrom : Txt → Option (Txt × Txt)
  | [] => Option.none
  | c :: cs =>
    if c == '\n' then Option.none
    else (undScan cs).map (fun p => (c :: p.1, p.2))

/-- `re.sub(r"!\[[^\]]*\]\([^)]+\)", "", ·)`. -/
def subImagesF : Nat → Txt → Txt
  | 0, t => t
  | Nat.succ n, t =>
    match t with
    | [] => []
    | '!' :: '[' :: cs2 =>
      let rest1 := cs2.dropWhile (fun d => !(d == ']'))
      (match rest1 with
       | ']' :: '(' :: rest2 =>
         let tgt := rest2.takeWhile (fun d => !(d == ')'))
         let rest3 := rest2.dropWhile (fun d => !(d == ')'))
         (match rest3 with
          | ')' :: rest4 =>
            if tgt.isEmpty then '!' :: subImagesF n ('[' :: cs2)
            else subImagesF n rest4
          | _ => '!' :: subImagesF n ('[' :: cs2))
       | _ => '!' :: subImagesF n ('[' :: cs2))
    | c :: cs => c :: subImagesF n cs

/-- `re.sub(r"\[([^\]]*)\]\(([^)]+)\)", r"\1", ·)`. -/
def subLinksF : Nat → Txt → Txt
  | 0, t => t
  | Nat.succ n, t =>
    match t with
    | [] => []
    | c :: cs =>
      if c == '[' then
        let txtPart := cs.takeWhile (fun d => !(d == ']'))
        let rest1 := cs.dropWhile (fun d => !(d == ']'))
        match rest1 with
        | ']' :: '(' :: rest2 =>
          let tgt := rest2.takeWhile (fun d => !(d == ')'))
          let rest3 := rest2.dropWhile (fun d => !(d == ')'))
          (match rest3 with
           | ')' :: rest4 =>
             if tgt.isEmpty then c :: subLinksF n cs
             else txtPart ++ subLinksF n rest4
           | _ => c :: subLinksF n cs)
        | _ => c :: subLinksF n cs
      else c :: subLinksF n cs

/-- `re.sub(r"\*\*(.+?)\*\*", r"\1", ·)` (and the `__...__` analogue). -/
def subPair2F (a : Char) : Nat → Txt → Txt
  | 0, t => t
  | Nat.succ n, t =>
    match t with
    | [] => []
    | c :: cs =>
      if c == a && cs.head? == some a then
        match close2From a a cs.tail with
        | some (inner, after) => inner ++ subPair2F a n after
        | Option.none => c :: subPair2F a n cs
      else c :: subPair2F a n cs

/-- `re.sub(r"\*(.+?)\*", r"\1", ·)`. -/
def subStarF : Nat → Txt → Txt
  | 0, t => t
  | Nat.succ n, t =>
    match t with
    | [] => []
    | c :: cs =>
      if c == '*' then
        match close1From '*' cs with
        | some (inner, after) => inner ++ subStarF n after
        | Option.none => c :: subStarF n cs
      else c :: subStarF n cs

/-- `re.sub(r"(?<!\w)_(.+?)_(?!\w)", r"\1", ·)`; the previous original
character is carried for the look-behind. -/
def subUndF : Nat → Option Char → Txt → Txt
  | 0, _, t => t
  | Nat.succ n, prev, t =>
    match t with
    | [] => []
    | c :: cs =>
      if c == '_' && !(match prev with | some p => isWordChar p | Option.none => false) then
        match undFrom cs with
        | some (inner, after) => inner ++ subUndF n (some '_') after
        | Option.none => c :: subUndF n (some c) cs
      else c :: subUndF n (some c) cs

/-- `re.sub(r"`([^`]+)`", r"\1", ·)` (inner text may span newlines). -/
def subCodeF : Nat → Txt → Txt
  | 0, t => t
  | Nat.succ n, t =>
    match t with
    | [] => []
    | c :: cs =>
      if c == btick then
        let inner := cs.takeWhile (fun d => !(d == btick))
        match cs.dropWhile (fun d => !(d == btick)) with
        | _ :: rest =>
          if inner.isEmpty then c :: subCodeF n cs
          else inner ++ subCodeF n rest
        | [] => c :: subCodeF n cs
      else c :: subCodeF n cs

/-- `_strip_markdown_formatting`. -/
def stripMarkdownFmt (t : Txt) : Txt :=
  let t1 := subImagesF t.length t
  let t2 := subLinksF t1.length t1
  let t3 := subPair2F '*' t2.length t2
  let t4 := subPair2F '_' t3.length t3
  let t5 := subStarF t4.length t4
  let t6 := subUndF t5.length Option.none t5
  subCodeF t6.length t6

def isVowelY (c : Char) : Bool :=
  c == 'a' || c == 'e' || c == 'i' || c == 'o' || c == 'u' || c == 'y'

def vowelGroupCount : Txt → Bool → Nat
  | [], _ => 0
  | c :: cs, inRun =>
    if isVowelY c then (if inRun then 0 else 1) + vowelGroupCount cs true
    else vowelGroupCount cs false

/-- `_count_syllables`. -/
def countSyllables (word : Txt) : Nat :=
  let w := pyStrip (lowerTxt word)
  if w.isEmpty then 1
  else
    let w2 := if 2 < w.length && endsWithTxt w (T ("e")) then w.dropLast else w
    max (vowelGroupCount w2 false) 1

def isSentEnd (c : Char) : Bool := c == '.' || c == '!' || c == '?'

/-- `re.split(r"[.!?]+", text)` — fuel-indexed scan. -/
def splitRunsF (p : Char → Bool) : Nat → Txt → Txt → List Txt
  | 0, t, acc => [acc.reverse ++ t]
  | Nat.succ _, [], acc => [acc.reverse]
  | Nat.succ n, c :: cs, acc =>
    if p c then acc.reverse :: splitRunsF p n (cs.dropWhile p) []
    else splitRunsF p n cs (c :: acc)

/-- `_flesch_kincaid_grade` (float arithmetic modelled exactly). -/
def fkGrade (t : Txt) : Option ℚ :=
  let sentences := ((splitRunsF isSentEnd t.length t []).map pyStrip).filter
    (fun s => !s.isEmpty)
  if sentences.length < 3 then Option.none
  else
    let words := sentences.flatMap (fun s => runsOfP isAsciiLetter s [])
    if words.isEmpty then Option.none
    else
      let sy := (words.map countSyllables).sum
      let nw := words.length
      let ns := sentences.length
      some ((39 : ℚ)/100 * ((nw : ℚ)/(ns : ℚ)) +
            (118 : ℚ)/10 * ((sy : ℚ)/(nw : ℚ)) - (1559 : ℚ)/100)

/-- Python `f"{g:.1f}"` on the modelled grade. -/
def fmtQ1 (q : ℚ) : Txt :=
  let r := halfEvenRound (q * 10)
  let sign : Txt := if r < 0 || (r == 0 && q < 0) then ['-'] else []
  let n := r.natAbs
  sign ++ natTxt (n / 10) ++ ['.'] ++ natTxt (n % 10)

/-- `check_readability`. -/
def checkReadability (name text : Txt) : List Issue :=
  let fm := parseFM text
  let bounds :=
    if depthIs fm "overview" then some ((8 : Nat), (14 : Nat), T ("overview"))
    else if depthIs fm "working" then some ((10 : Nat), (16 : Nat), T ("working"))
    else Option.none
  match bounds with
  | Option.none => []
  | some (lo, hi, d) =>
    let body := stripMarkdownFmt (stripFenced (bodyWithoutFM text))
    match fkGrade body with
    | Option.none => []
    | some g =>
      if g < (lo : ℚ) then
        [mkIssue name
          (T ("Readability grade ") ++ fmtQ1 g ++ T (" below ") ++ natTxt lo ++
           T (" for depth \x27") ++ d ++ T ("\x27 — may be too simplistic")) sevWarn]
      else if (hi : ℚ) < g then
        [mkIssue name
          (T ("Readability grade ") ++ fmtQ1 g ++ T (" above ") ++ natTxt hi ++
           T (" for depth \x27") ++ d ++ T ("\x27 — may be too complex")) sevWarn]
      else []

/-- Modelled from the spec: `check_placeholder_comments` is imported and run by
the orchestrator but its definition is not part of the repository snapshot
under verification, and the specification's validator battery (its component
design, section 4.2) does not include it; it is modelled as contributing no
issues. -/
def checkPlaceholderComments (_name _text : Txt) : List Issue := []

/-- Modelled from the spec: `check_source_diversity` is absent from the
repository snapshot and from the specification's validator battery; modelled
as contributing no issues. -/
def checkSourceDiversity (_name _text : Txt) : List Issue := []

/-- Modelled from the spec: `check_citation_grounding` is absent from the
repository snapshot and from the specification's validator battery; modelled
as contributing no issues. -/
def checkCitationGrounding (_name _text : Txt) : List Issue := []

/-! ## Managed-section markers and manifest parsers (`cross_validators.py`,
`templates.py`) -/

def MARKER_BEGIN : Txt := T ("<!-- dewey:kb:begin -->")
def MARKER_END : Txt := T ("<!-- dewey:kb:end -->")

/-- Python `str.find`: index of the first occurrence of a substring. -/
def findSubIdxAux (needle : Txt) : Txt → Nat → Option Nat
  | [], i => if needle.isEmpty then some i else Option.none
  | c :: cs, i =>
    if List.isPrefixOf needle (c :: cs) then some i
    else findSubIdxAux needle cs (i + 1)

def findSubIdx (hay needle : Txt) : Option Nat := findSubIdxAux needle hay 0

/-- `_managed_section`. -/
def managedSection (text : Txt) : Option Txt :=
  match findSubIdx text MARKER_BEGIN, findSubIdx text MARKER_END with
  | some b, some e =>
    if e ≤ b then Option.none
    else
      let start := b + MARKER_BEGIN.length
      some ((text.drop start).take (e - start))
  | _, _ => Option.none

/-- Regex `^###\s+(.+)$` applied to one line. -/
def matchH3 (line : Txt) : Option Txt :=
  match line with
  | '#' :: '#' :: '#' :: rest =>
    if (rest.takeWhile pySpace).isEmpty then Option.none
    else
      let content := rest.dropWhile pySpace
      if content.isEmpty then Option.none else some content
  | _ => Option.none

/-- Regex `\[([^\]]+)\]\(([^)]+)\)` (nonempty link text), `re.search`-style
first match: fuel-indexed scan. -/
def findLinksPlusF : Nat → Txt → Option (Txt × Txt)
  | 0, _ => Option.none
  | Nat.succ n, t =>
    match t with
    | [] => Option.none
    | c :: cs =>
      if c == '[' then
        let txtPart := cs.takeWhile (fun d => !(d == ']'))
        let rest1 := cs.dropWhile (fun d => !(d == ']'))
        match rest1 with
        | ']' :: '(' :: rest2 =>
          let tgt := rest2.takeWhile (fun d => !(d == ')'))
          let rest3 := rest2.dropWhile (fun d => !(d == ')'))
          match rest3 with
          | ')' :: _ =>
            if txtPart.isEmpty || tgt.isEmpty then findLinksPlusF n cs
            else some (txtPart, tgt)
          | _ => findLinksPlusF n cs
        | _ => findLinksPlusF n cs
      else findLinksPlusF n cs

def searchLinkPlus (t : Txt) : Option (Txt × Txt) := findLinksPlusF t.length t

/-- `_parse_agents_managed`: area headings with their topic rows, in insertion
order (a repeated heading resets its list, as Python dict assignment does). -/
def agentsStep (st : List (Txt × List (Txt × Txt)) × Option Txt) (line : Txt) :
    List (Txt × List (Txt × Txt)) × Option Txt :=
  match matchH3 line with
  | some h =>
    let area := pyStrip h
    (alSet st.1 area [], some area)
  | Option.none =>
    match st.2 with
    | some a =>
      if startsWithChar line '|' then
        match searchLinkPlus line with
        | some (n, p) =>
          let cur := (alGet st.1 a).getD []
          (alSet st.1 a (cur ++ [(n, p)]), st.2)
        | Option.none => st
      else st
    | Option.none => st

def parseAgentsManaged (text : Txt) : List (Txt × List (Txt × Txt)) :=
  match managedSection text with
  | Option.none => []
  | some sec => ((linesOf sec).foldl agentsStep ([], Option.none)).1

structure ClaudeEntry where
  cname : Txt
  cpath : Txt
  coverview : Txt
deriving DecidableEq, Repr

/-- Regex `^#{1,3}\s+` applied to one line. -/
def isHeading13 (line : Txt) : Bool :=
  let r := line.takeWhile (fun c => c == '#')
  if 1 ≤ r.length && r.length ≤ 3 then
    match line.drop r.length with
    | c :: _ => pySpace c
    | [] => false
  else false

/-- Regex `^###\s+Domain Areas` applied to one line. -/
def isDomainAreasHeading (line : Txt) : Bool :=
  match matchH3 line with
  | some h => List.isPrefixOf (T ("Domain Areas")) h
  | Option.none => false

/-- Regex `\[([^\]]*)\]\(([^)]+)\)`, `re.search`-style first match. -/
def searchLink (t : Txt) : Option (Txt × Txt) := (findLinks t).head?

/-- One `CLAUDE.md` managed-section table row, if the line is one. -/
def claudeRowOf (line : Txt) : Option ClaudeEntry :=
  if !startsWithChar line '|' then Option.none
  else if hasSub line (T ("---")) then Option.none
  else
    let cells := ((splitOnChar '|' line).map pyStrip).filter (fun c => !c.isEmpty)
    match cells with
    | c0 :: c1 :: c2 :: _ =>
      if c0 == T ("Area") then Option.none
      else
        let path := stripWhile (fun c => c == btick) c1
        let overview :=
          match searchLink c2 with
          | some (_, tgt) => tgt
          | Option.none => []
        some ⟨c0, path, overview⟩
    | _ => Option.none

/-- `_parse_claude_managed` body loop (with its `break` on the next heading). -/
def claudeRows : List Txt → Bool → List ClaudeEntry
  | [], _ => []
  | line :: rest, inTable =>
    if isDomainAreasHeading line then claudeRows rest true
    else if inTable && isHeading13 line && !hasSub line (T ("Domain Areas")) then []
    else if !inTable then claudeRows rest false
    else
      match claudeRowOf line with
      | some e => e :: claudeRows rest true
      | Option.none => claudeRows rest true

def parseClaudeManaged (text : Txt) : List ClaudeEntry :=
  match managedSection text with
  | Option.none => []
  | some sec => claudeRows (linesOf sec) false

/-! ## Curation-plan parser (`_parse_curation_plan`) -/

structure PlanItem where
  parea : Txt
  pname : Txt
  pchecked : Bool
deriving DecidableEq, Repr

/-- Does `s` match `^\s+--\s+.*$` (the optional ` -- relevance -- rationale`
suffix of a plan item)? -/
def dashSuffixOk (s : Txt) : Bool :=
  if (s.takeWhile pySpace).isEmpty then false
  else
    match s.dropWhile pySpace with
    | '-' :: '-' :: r2 => !(r2.takeWhile pySpace).isEmpty
    | _ => false

/-- The non-greedy `(.+?)` capture of the item name: the shortest nonempty
prefix whose remainder matches the optional suffix, or is empty. -/
def cbNameAux : Txt → Txt → Txt
  | accRev, [] => accRev.reverse
  | accRev, c :: cs =>
    if dashSuffixOk (c :: cs) then accRev.reverse else cbNameAux (c :: accRev) cs

def checkboxName : Txt → Txt
  | [] => []
  | c :: cs => cbNameAux [c] cs

/-- Regex `^-\s+\[([ xX])\]\s+(.+?)(?:\s+--\s+.*)?$` applied to one line:
`(checked, stripped name)`. -/
def matchCheckbox (line : Txt) : Option (Bool × Txt) :=
  match line with
  | '-' :: r1 =>
    if (r1.takeWhile pySpace).isEmpty then Option.none
    else
      match r1.dropWhile pySpace with
      | '[' :: c :: ']' :: r2 =>
        if c == ' ' || c == 'x' || c == 'X' then
          if (r2.takeWhile pySpace).isEmpty then Option.none
          else
            let rest := r2.dropWhile pySpace
            let checked := c == 'x' || c == 'X'
            if rest.isEmpty then
              if 2 ≤ r2.length then some (checked, []) else Option.none
            else some (checked, pyStrip (checkboxName rest))
        else Option.none
      | _ => Option.none
  | _ => Option.none

def planStep (st : List PlanItem × Option Txt) (line : Txt) :
    List PlanItem × Option Txt :=
  match matchH2 line with
  | some h => (st.1, some (pyStrip h))
  | Option.none =>
    match st.2 with
    | Option.none => st
    | some area =>
      match matchCheckbox line with
      | some (checked, nm) => (st.1 ++ [⟨area, nm, checked⟩], st.2)
      | Option.none => st

def parseCurationPlan (text : Txt) : List PlanItem :=
  ((linesOf text).foldl planStep ([], Option.none)).1

/-! ## Discovery and shared path helpers -/

def leDocs (a b : KDoc) : Bool := txtLeB a.fname b.fname
def sortDocs (l : List KDoc) : List KDoc := sortLe leDocs l
def leAreas (a b : AreaDir) : Bool := txtLeB a.aname b.aname
def sortAreas (l : List AreaDir) : List AreaDir := sortLe leAreas l

/-- `sorted(child.glob("*.md"))`. -/
def mdDocs (ad : AreaDir) : List KDoc :=
  (sortDocs ad.files).filter (fun d => endsWithTxt d.fname (T (".md")))

def isHiddenArea (a : Txt) : Bool := startsWithChar a '_' || startsWithChar a '.'

def areaPath (kb : KB) (a : Txt) : Txt := pathOf [kb.kdirName, a]
def docPath (kb : KB) (a f : Txt) : Txt := pathOf [kb.kdirName, a, f]
def rootDocPath (kb : KB) (f : Txt) : Txt := pathOf [kb.kdirName, f]
def propPath (kb : KB) (f : Txt) : Txt := pathOf [kb.kdirName, T ("_proposals"), f]
def planPathTxt : Txt := pathOf [T (".dewey"), T ("curation-plan.md")]
def agentsPathTxt : Txt := pathOf [T ("AGENTS.md")]
def claudePathTxt : Txt := pathOf [T ("CLAUDE.md")]

/-- `_discover_areas_and_topics`. -/
def discoverAreasTopics (kb : KB) : List (Txt × List KDoc) :=
  (sortAreas kb.areas).filterMap (fun ad =>
    if isHiddenArea ad.aname then Option.none
    else some (ad.aname, (mdDocs ad).filter (fun d =>
      !(d.fname == T ("overview.md")) && !isRefName d.fname &&
      !(d.fname == T ("index.md")))))

/-- Lexicographic order on path component lists (how `pathlib` sorts paths). -/
def partsLtB : List Txt → List Txt → Bool
  | [], [] => false
  | [], _ :: _ => true
  | _ :: _, [] => false
  | a :: as, b :: bs =>
    if txtLtB a b then true else if txtLtB b a then false else partsLtB as bs

def partsLeB (a b : List Txt) : Bool := !(partsLtB b a)

structure FileEnt where
  comps : List Txt
  fname : Txt
  text : Txt
deriving DecidableEq, Repr

/-- `_discover_md_files` / the link-graph file walk:
`sorted(knowledge_dir.rglob("*.md"))`, excluding paths with a `_`-prefixed
part and `index.md`. -/
def discoverMdFiles (kb : KB) : List FileEnt :=
  let rootEnts := (kb.rootFiles.filter (fun d => endsWithTxt d.fname (T (".md")))).map
    (fun d => FileEnt.mk [kb.kdirName, d.fname] d.fname d.text)
  let areaEnts := kb.areas.flatMap (fun ad =>
    (ad.files.filter (fun d => endsWithTxt d.fname (T (".md")))).map
      (fun d => FileEnt.mk [kb.kdirName, ad.aname, d.fname] d.fname d.text))
  (sortLe (fun a b => partsLeB a.comps b.comps) (rootEnts ++ areaEnts)).filter
    (fun e =>
      (e.comps.drop 1).all (fun p => !(startsWithChar p '_')) &&
      !(e.fname == T ("index.md")))

/-- Ordered pairs `i < j` of a list, in nested-loop order. -/
def ordPairs {α : Type} : List α → List (α × α)
  | [] => []
  | x :: xs => xs.map (fun y => (x, y)) ++ ordPairs xs

/-! ## Cross-document validators (`cross_validators.py`, plus the structural
validators of `validators.py`) -/

/-- `check_coverage`. -/
def checkCoverage (kb : KB) : List Issue :=
  ((sortAreas kb.areas).filter (fun ad => !isHiddenArea ad.aname)).flatMap (fun ad =>
    let ovIssue :=
      if (areaFile ad (T ("overview.md"))).isSome then []
      else
        [mkIssue (areaPath kb ad.aname)
          (T ("Area \x27") ++ ad.aname ++ T ("\x27 missing overview.md")) sevFail]
    let refIssues := (mdDocs ad).filterMap (fun d =>
      if d.fname == T ("overview.md") || isRefName d.fname then Option.none
      else
        let stem := pyStem d.fname
        if (areaFile ad (stem ++ T (".ref.md"))).isSome then Option.none
        else
          some (mkIssue (docPath kb ad.aname d.fname)
            (T ("Topic \x27") ++ d.fname ++ T ("\x27 missing companion ") ++
             stem ++ T (".ref.md")) sevWarn))
    ovIssue ++ refIssues)

/-- `check_index_sync`. -/
def checkIndexSync (kb : KB) : List Issue :=
  match rootFile kb (T ("index.md")) with
  | Option.none =>
    [mkIssue (rootDocPath kb (T ("index.md")))
      (T ("Missing index.md — run scaffold --rebuild-index")) sevWarn]
  | some idx =>
    ((sortAreas kb.areas).filter (fun ad => !(startsWithChar ad.aname '_'))).flatMap
      (fun ad =>
        (mdDocs ad).filterMap (fun d =>
          if d.fname == T ("overview.md") || isRefName d.fname then Option.none
          else
            let rel := ad.aname ++ '/' :: d.fname
            if hasSub idx.text rel then Option.none
            else
              some (mkIssue (docPath kb ad.aname d.fname)
                (T ("Topic not in index.md: ") ++ rel ++
                 T (" — run scaffold --rebuild-index")) sevWarn)))

/-- `read_history` (the JSONL log decoded; `entries[-limit:]`). -/
def readHistory (kb : KB) (limit : Nat) : List Snapshot :=
  if limit == 0 then kb.history else kb.history.drop (kb.history.length - limit)

/-- `check_inventory_regression`. -/
def checkInventoryRegression (kb : KB) (currentFiles : List Txt) : List Issue :=
  match (readHistory kb 1).getLast? with
  | Option.none => []
  | some snap =>
    let missing := sortTxts ((snap.fileList.dedup).filter
      (fun f => !(currentFiles.contains f)))
    missing.map (fun f =>
      mkIssue f
        (T ("File was present in last health check but is now missing: ") ++ f)
        sevWarn)

def agentsAreaMatches (agentsName slug : Txt) : Bool :=
  slugifyTxt agentsName == slug || lowerTxt agentsName == slug

/-- `check_manifest_sync`. -/
def checkManifestSync (kb : KB) : List Issue :=
  let disk := discoverAreasTopics kb
  let agentsIssues :=
    match kb.agents with
    | Option.none => []
    | some text =>
      if (managedSection text).isNone then []
      else
        let areasA := parseAgentsManaged text
        let missingAreas := disk.filterMap (fun p =>
          if areasA.any (fun q => agentsAreaMatches q.1 p.1) then Option.none
          else
            some (mkIssue agentsPathTxt
              (T ("Area \x27") ++ p.1 ++ T ("\x27 on disk not listed in AGENTS.md"))
              sevWarn))
        let topicIssues := disk.flatMap (fun p =>
          match areasA.find? (fun q => agentsAreaMatches q.1 p.1) with
          | Option.none => []
          | some q =>
            let paths := q.2.map Prod.snd
            p.2.filterMap (fun d =>
              let rel := kb.kdirName ++ '/' :: p.1 ++ '/' :: d.fname
              if paths.contains rel then Option.none
              else
                some (mkIssue (docPath kb p.1 d.fname)
                  (T ("Topic not listed in AGENTS.md: ") ++ rel) sevWarn)))
        let refIssues := areasA.flatMap (fun q => q.2.filterMap (fun e =>
          let ok :=
            match resolveComps [] e.2 with
            | some rc => kbExists kb rc
            | Option.none => false
          if ok then Option.none
          else
            some (mkIssue agentsPathTxt
              (T ("AGENTS.md references nonexistent file: ") ++ e.2) sevWarn)))
        missingAreas ++ topicIssues ++ refIssues
  let claudeIssues :=
    match kb.claude with
    | Option.none => []
    | some text =>
      if (managedSection text).isNone then []
      else
        let entries := parseClaudeManaged text
        let dirSlugs := entries.filterMap (fun e =>
          match splitOnChar '/' (stripWhile (fun c => c == '/') e.cpath) with
          | _ :: p1 :: _ => some p1
          | _ => Option.none)
        let missingAreas := disk.filterMap (fun p =>
          if dirSlugs.contains p.1 then Option.none
          else
            some (mkIssue claudePathTxt
              (T ("Area \x27") ++ p.1 ++ T ("\x27 on disk not listed in CLAUDE.md"))
              sevWarn))
        let entryIssues := entries.flatMap (fun e =>
          let dirOk :=
            match resolveComps [] (stripWhile (fun c => c == '/') e.cpath) with
            | some rc => kbIsDir kb rc
            | Option.none => false
          let d1 :=
            if dirOk then []
            else
              [mkIssue claudePathTxt
                (T ("CLAUDE.md references nonexistent directory: ") ++ e.cpath)
                sevWarn]
          let d2 :=
            if e.coverview.isEmpty then []
            else
              let ok :=
                match resolveComps [] e.coverview with
                | some rc => kbExists kb rc
                | Option.none => false
              if ok then []
              else
                [mkIssue claudePathTxt
                  (T ("CLAUDE.md references nonexistent overview: ") ++ e.coverview)
                  sevWarn]
          d1 ++ d2)
        missingAreas ++ entryIssues
  agentsIssues ++ claudeIssues

/-- `check_curation_plan_sync`. -/
def checkCurationPlanSync (kb : KB) : List Issue :=
  match kb.plan with
  | Option.none => []
  | some planText =>
    let items := parseCurationPlan planText
    if items.isEmpty then []
    else
      let disk := discoverAreasTopics kb
      let planTopics := items.map (fun it =>
        it.parea ++ '/' :: (slugifyTxt it.pname ++ T (".md")))
      let itemIssues := items.filterMap (fun it =>
        let slug := slugifyTxt it.pname
        let rel := it.parea ++ '/' :: (slug ++ T (".md"))
        let fileExists :=
          match resolveComps [kb.kdirName] (it.parea ++ '/' :: (slug ++ T (".md"))) with
          | some rc => kbExists kb rc
          | Option.none => false
        if it.pchecked && !fileExists then
          some (mkIssue planPathTxt
            (T ("Plan item \x27") ++ it.pname ++
             T ("\x27 is checked but file not found: ") ++ rel) sevWarn)
        else if !it.pchecked && fileExists then
          some (mkIssue planPathTxt
            (T ("Plan item \x27") ++ it.pname ++
             T ("\x27 should be checked off — file exists: ") ++ rel) sevWarn)
        else Option.none)
      let diskIssues := disk.flatMap (fun p => p.2.filterMap (fun d =>
        let rel := p.1 ++ '/' :: d.fname
        if planTopics.contains rel then Option.none
        else
          some (mkIssue (docPath kb p.1 d.fname)
            (T ("Topic on disk not in curation plan: ") ++ rel) sevWarn)))
      itemIssues ++ diskIssues

/-- `check_proposal_integrity`. -/
def checkProposalIntegrity (kb : KB) (maxAgeDays : Int) : List Issue :=
  if kb.proposals.isEmpty then []
  else
    let files := (sortDocs kb.proposals).filter
      (fun d => endsWithTxt d.fname (T (".md")))
    files.flatMap (fun pf =>
      let name := propPath kb pf.fname
      let fm := parseFM pf.text
      let statusIssue :=
        if fmGet fm (T ("status")) == some (FMVal.vstr (T ("proposal"))) then []
        else
          [mkIssue name
            (T ("Proposal missing \x27status: proposal\x27 in frontmatter")) sevWarn]
      let proposedIssue :=
        if fmTruthy (fmGet fm (T ("proposed_by"))) then []
        else [mkIssue name (T ("Proposal missing \x27proposed_by\x27 field")) sevWarn]
      let rationaleIssue :=
        if fmTruthy (fmGet fm (T ("rationale"))) then []
        else [mkIssue name (T ("Proposal missing \x27rationale\x27 field")) sevWarn]
      let freshIssue :=
        let lv := fmGet fm (T ("last_validated"))
        if !fmTruthy lv then []
        else
          match parseISODate (fmValPyStr (lv.getD FMVal.vnone)) with
          | Option.none => []
          | some ymd =>
            let age : Int := (kb.today : Int) - (dateOrdinal ymd.y ymd.m ymd.d : Int)
            if age > maxAgeDays then
              [mkIssue name
                (T ("Stale proposal: ") ++ intTxt age ++ T (" days old (max ") ++
                 intTxt maxAgeDays ++ T (")")) sevWarn]
            else []
      let headingLower := (findH2s (bodyWithoutFM pf.text)).map lowerTxt
      let secIssues := WORKING_SECTIONS.filterMap (fun sec =>
        if headingLower.any (fun h => hasSub h (lowerTxt sec)) then Option.none
        else
          some (mkIssue name
            (T ("Proposal missing required section: ") ++ sec) sevWarn))
      statusIssue ++ proposedIssue ++ rationaleIssue ++ freshIssue ++ secIssues)

/-- The `How It's Organized` accumulation loop inside `check_link_graph`. -/
def howOrganizedAux : List Txt → Bool → Txt → Txt
  | [], _, acc => acc
  | l :: ls, capturing, acc =>
    if List.isPrefixOf ['#', '#', ' '] l then
      if capturing then acc
      else if hasSub (lowerTxt l) (T ("how it")) && hasSub (lowerTxt l) (T ("organized")) then
        howOrganizedAux ls true acc
      else howOrganizedAux ls false acc
    else if capturing then howOrganizedAux ls true (acc ++ l ++ ['\n'])
    else howOrganizedAux ls false acc

def howOrganizedText (body : Txt) : Txt := howOrganizedAux (linesOf body) false []

/-- `check_link_graph`. -/
def checkLinkGraph (kb : KB) : List Issue :=
  let allF := discoverMdFiles kb
  if allF.isEmpty then []
  else
    let linkedTargets : List (List Txt) := allF.flatMap (fun e =>
      (findLinks e.text).filterMap (fun lk =>
        let target := pyStrip lk.2
        if isExternalTarget target then Option.none
        else
          let tp := (splitOnChar '#' target).headD []
          if tp.isEmpty then Option.none
          else
            match resolveComps e.comps.dropLast tp with
            | some rc => if kbExists kb rc then some rc else Option.none
            | Option.none => Option.none))
    let orphanIssues := allF.filterMap (fun e =>
      if e.fname == T ("overview.md") || e.fname == T ("index.md") then Option.none
      else if linkedTargets.contains e.comps then Option.none
      else
        let rel := relOf (e.comps.drop 1)
        some (mkIssue (pathOf e.comps)
          (T ("Orphaned file — not linked from any other file: ") ++ rel) sevWarn))
    let ovIssues := ((sortAreas kb.areas).filter (fun ad => !isHiddenArea ad.aname)).flatMap
      (fun ad =>
        match areaFile ad (T ("overview.md")) with
        | Option.none => []
        | some ov =>
          let topicNames := (mdDocs ad).filterMap (fun d =>
            if d.fname == T ("overview.md") || isRefName d.fname ||
               d.fname == T ("index.md") then Option.none
            else some d.fname)
          if topicNames.isEmpty then []
          else
            let sectionText := howOrganizedText (bodyWithoutFM ov.text)
            if sectionText.isEmpty then []
            else
              let linkedFiles := (findLinks sectionText).filterMap (fun lk =>
                let tgt := (splitOnChar '#' (pyStrip lk.2)).headD []
                if tgt.isEmpty then Option.none
                else if List.isPrefixOf (T ("http://")) tgt ||
                        List.isPrefixOf (T ("https://")) tgt then Option.none
                else some tgt)
              (sortTxts topicNames.dedup).filterMap (fun tn =>
                if linkedFiles.contains tn then Option.none
                else
                  some (mkIssue (docPath kb ad.aname (T ("overview.md")))
                    (T ("Topic \x27") ++ tn ++
                     T ("\x27 not listed in overview\x27s How It\x27s Organized section"))
                    sevWarn)))
    orphanIssues ++ ovIssues

/-! ## Duplicate-content detection -/

/-- `re.split(r"\n\s*\n", text)` — fuel-indexed scan (each step consumes at
least one character, so fuel initialised to the length never runs out). -/
def paraSplitF : Nat → Txt → Txt → List Txt
  | 0, t, acc => [acc.reverse ++ t]
  | Nat.succ n, t, acc =>
    match t with
    | [] => [acc.reverse]
    | c :: cs =>
      if c == '\n' then
        let run := cs.takeWhile pySpace
        if run.contains '\n' then
          let k := run.length - 1 - ((run.reverse.findIdx? (fun d => d == '\n')).getD 0)
          acc.reverse :: paraSplitF n (cs.drop (k + 1)) []
        else paraSplitF n cs ('\n' :: acc)
      else paraSplitF n cs (c :: acc)

def paraPieces (t : Txt) : List Txt := paraSplitF t.length t []

/-- `_extract_paragraphs`. -/
def extractParagraphs (t : Txt) : List Txt :=
  ((paraPieces t).map pyStrip).filter (fun p => 40 ≤ p.length)

/-- `_word_shingles(text, 5)`: the set of 5-word windows over `[a-z]+` runs
of the lowercased text (a Python `set`, modelled as a deduplicated list). -/
def shinglesOf (t : Txt) : List (List Txt) :=
  let words := runsOfP (fun c => 97 ≤ c.toNat && c.toNat ≤ 122) (lowerTxt t) []
  if words.length < 5 then []
  else ((List.range (words.length - 5 + 1)).map (fun i => (words.drop i).take 5)).dedup

/-- `_jaccard` over shingle sets (Python float division modelled exactly). -/
def jaccardQ (a b : List (List Txt)) : ℚ :=
  let uni := (a ++ b).dedup
  if uni.isEmpty then 0
  else ((a.filter (fun x => b.contains x)).length : ℚ) / (uni.length : ℚ)

/-- Python `f"{sim:.0%}"`. -/
def pctTxt (q : ℚ) : Txt := intTxt (halfEvenRound (q * 100)) ++ T ("%")

/-- `_is_companion_pair` on file names (the same-directory requirement is
checked by the caller through the area component). -/
def isCompanionNames (aName bName : Txt) : Bool :=
  if isRefName aName then bName == refStem aName ++ T (".md")
  else if isRefName bName then aName == refStem bName ++ T (".md")
  else false

structure DupData where
  darea : Txt
  dfname : Txt
  paragraphs : List Txt
  shingles : List (List Txt)
deriving DecidableEq, Repr

def ddCompanion (a b : DupData) : Bool :=
  a.darea == b.darea && isCompanionNames a.dfname b.dfname

/-- The files `check_duplicate_content` walks: `.md` files of the non-hidden
area directories, excluding `index.md`. -/
def dupFiles (kb : KB) : List (Txt × KDoc) :=
  ((sortAreas kb.areas).filter (fun ad => !isHiddenArea ad.aname)).flatMap (fun ad =>
    ((mdDocs ad).filter (fun d => !(d.fname == T ("index.md")))).map
      (fun d => (ad.aname, d)))

def dupDataOf (kb : KB) : List DupData :=
  (dupFiles kb).map (fun p =>
    let body := stripFenced (bodyWithoutFM p.2.text)
    ⟨p.1, p.2.fname, extractParagraphs body, shinglesOf body⟩)

/-- Pass 1 grouping: paragraph content → owners, in first-seen order
(`hashlib.md5` modelled as an injective fingerprint of the paragraph). -/
def paraMapOf (dd : List DupData) : List (Txt × List (Txt × Txt)) :=
  dd.foldl (fun m f =>
    f.paragraphs.foldl (fun m2 para =>
      alSet m2 para ((alGet m2 para).getD [] ++ [(f.darea, f.dfname)])) m) []

/-- Pass 1 of `check_duplicate_content`: exact paragraph duplicates. -/
def dupPass1 (kb : KB) (dd : List DupData) : List Issue :=
  (paraMapOf dd |>.foldl (fun (st : List (Txt × Txt) × List Issue) entry =>
    let uniq := sortLe (fun a b => txtLeB (docPath kb a.1 a.2) (docPath kb b.1 b.2))
      entry.2.dedup
    if uniq.length < 2 then st
    else
      (ordPairs uniq).foldl (fun st2 pr =>
        let key := (docPath kb pr.1.1 pr.1.2, docPath kb pr.2.1 pr.2.2)
        if st2.1.contains key then st2
        else
          (key :: st2.1,
           st2.2 ++ [mkIssue (docPath kb pr.1.1 pr.1.2)
             (T ("Exact duplicate paragraph found in ") ++ relOf [pr.1.1, pr.1.2] ++
              T (" and ") ++ relOf [pr.2.1, pr.2.2]) sevWarn])) st) ([], [])).2

/-- Pass 2 of `check_duplicate_content`: pairwise Jaccard similarity over
non-companion pairs (`similarity_threshold = 0.4`, modelled as `2/5`). -/
def dupPass2 (kb : KB) (dd : List DupData) : List Issue :=
  (ordPairs dd).filterMap (fun pr =>
    if ddCompanion pr.1 pr.2 then Option.none
    else if pr.1.shingles.isEmpty || pr.2.shingles.isEmpty then Option.none
    else
      let sim := jaccardQ pr.1.shingles pr.2.shingles
      if (2 : ℚ)/5 < sim then
        some (mkIssue (docPath kb pr.1.darea pr.1.dfname)
          (T ("High similarity (") ++ pctTxt sim ++ T (") between ") ++
           relOf [pr.1.darea, pr.1.dfname] ++ T (" and ") ++
           relOf [pr.2.darea, pr.2.dfname] ++ T (" — consider deduplicating"))
          sevWarn)
      else Option.none)

/-- `check_duplicate_content`. -/
def checkDuplicateContent (kb : KB) : List Issue :=
  let allF := dupFiles kb
  if allF.length < 2 then []
  else
    let dd := dupDataOf kb
    dupPass1 kb dd ++ dupPass2 kb dd

/-- `check_naming_conventions`. -/
def checkNamingConventions (kb : KB) : List Issue :=
  ((sortAreas kb.areas).filter (fun ad => !isHiddenArea ad.aname)).flatMap (fun ad =>
    let dirIssue :=
      if ad.aname == slugifyTxt ad.aname then []
      else
        [mkIssue (areaPath kb ad.aname)
          (T ("Area directory \x27") ++ ad.aname ++
           T ("\x27 doesn\x27t follow naming conventions — expected \x27") ++
           slugifyTxt ad.aname ++ T ("\x27")) sevWarn]
    let fileIssues := (mdDocs ad).filterMap (fun d =>
      if d.fname == T ("overview.md") || d.fname == T ("index.md") then Option.none
      else
        let stem := if isRefName d.fname then refStem d.fname else pyStem d.fname
        if stem == slugifyTxt stem then Option.none
        else
          some (mkIssue (docPath kb ad.aname d.fname)
            (T ("Filename \x27") ++ d.fname ++
             T ("\x27 doesn\x27t follow naming conventions — expected \x27") ++
             slugifyTxt stem ++ T ("\x27")) sevWarn))
    dirIssue ++ fileIssues)

/-! ## Auto-fix engine (`auto_fix.py`) -/

structure FixAction where
  afile : Txt
  action : Txt
  info : List (Txt × Txt)
deriving DecidableEq, Repr

/-- Python `list.insert` of a block at one position (`insert(i + k, line)` for
successive stub lines). -/
def insertAllAt {α : Type} (l : List α) (i : Nat) (xs : List α) : List α :=
  l.take i ++ xs ++ l.drop i

/-- The `section_positions` map: last `## ` line index per canonical section
(first canonical name whose lowercase form occurs in the heading wins the
line; a later line overwrites the entry). -/
def buildSectionPositions (canonical : List Txt) (lines : List Txt) : List (Txt × Nat) :=
  lines.enum.foldl (fun m p =>
    if List.isPrefixOf (T ("## ")) p.2 then
      let ht := pyStrip (p.2.drop 3)
      match canonical.find? (fun sec => hasSub (lowerTxt ht) (lowerTxt sec)) with
      | some sec => alSet m sec p.1
      | Option.none => m
    else m) []

/-- First `## ` line at or after `start`, else the line count. -/
def findFirstH2At (lines : List Txt) (start : Nat) : Nat :=
  match (lines.drop start).findIdx? (fun l => List.isPrefixOf (T ("## ")) l) with
  | some k => start + k
  | Option.none => lines.length

/-- The no-prior-section insertion point: after the first blank line following
the first H1 line, after the H1 if no blank follows, else the line count. -/
def findH1Insert (lines : List Txt) : Nat :=
  match lines.findIdx? (fun l =>
    List.isPrefixOf (T ("# ")) l && !List.isPrefixOf (T ("## ")) l) with
  | Option.none => lines.length
  | some j =>
    match (lines.drop (j + 1)).findIdx? (fun l => (pyStrip l).isEmpty) with
    | some k => (j + 1 + k) + 1
    | Option.none => j + 1

structure FMSState where
  lines : List Txt
  offset : Nat
  positions : List (Txt × Nat)
  actions : List FixAction
deriving Repr

/-- One iteration of the canonical-order stub-insertion loop of
`fix_missing_sections`. -/
def fmsInsertOne (name : Txt) (canonical missing : List Txt) (st : FMSState)
    (sec : Txt) : FMSState :=
  if !(missing.contains sec) then st
  else
    let stub : List Txt := [T ("## ") ++ sec, [], T ("<!-- TODO: Add content -->"), []]
    let insertAfter := (canonical.takeWhile (fun p => !(p == sec))).foldl
      (fun acc prev =>
        match alGet st.positions prev with
        | some pos => some (pos + st.offset)
        | Option.none => acc) Option.none
    let insertAt :=
      match insertAfter with
      | some ia => findFirstH2At st.lines (ia + 1)
      | Option.none => findH1Insert st.lines
    let newLines := insertAllAt st.lines insertAt stub
    let newOffset := st.offset + stub.length
    let bumped := st.positions.map (fun p =>
      if (insertAt : Int) - (newOffset : Int) + (stub.length : Int) ≤ (p.2 : Int) then
        (p.1, p.2 + stub.length)
      else p)
    { lines := newLines
      offset := newOffset
      positions := alSet bumped sec insertAt
      actions := st.actions ++
        [⟨name, T ("inserted_stub_section"), [(T ("section"), sec)]⟩] }

/-- `fix_missing_sections`, as text-in/text-out plus the action list. -/
def fixMissingSections (name text : Txt) (issues : List Issue) :
    Txt × List FixAction :=
  let relevant := issues.filter (fun i =>
    i.file == name && hasSub i.message (T ("Missing required section")))
  if relevant.isEmpty then (text, [])
  else
    let fm := parseFM text
    let canonicalOpt :=
      if depthIs fm "working" then some WORKING_SECTIONS
      else if depthIs fm "overview" then some OVERVIEW_SECTIONS
      else Option.none
    match canonicalOpt with
    | Option.none => (text, [])
    | some canonical =>
      let pre := T ("Missing required section: ")
      let missing := relevant.filterMap (fun i =>
        if hasSub i.message pre then some (i.message.drop pre.length) else Option.none)
      if missing.isEmpty then (text, [])
      else
        let lines0 := linesOf text
        let st0 : FMSState := ⟨lines0, 0, buildSectionPositions canonical lines0, []⟩
        let stF := canonical.foldl (fmsInsertOne name canonical missing) st0
        if stF.actions.isEmpty then (text, [])
        else (joinLines stF.lines, stF.actions)

def pyUpperChar (c : Char) : Char :=
  if 97 ≤ c.toNat ∧ c.toNat ≤ 122 then Char.ofNat (c.toNat - 32) else c

/-- Python `str.title()` over the ASCII range the stems exercise. -/
def titleCaseAux : Txt → Bool → Txt
  | [], _ => []
  | c :: cs, prevCased =>
    let cased := isAsciiLetter c
    (if cased && !prevCased then pyUpperChar c
     else if cased then pyLowerChar c
     else c) :: titleCaseAux cs cased

def titleCase (t : Txt) : Txt := titleCaseAux t false

/-- `stem.replace("-", " ").title()`. -/
def displayNameOf (stem : Txt) : Txt :=
  titleCase (stem.map (fun c => if c == '-' then ' ' else c))

/-- Insertion of the companion link after the first `Go Deeper` H2 line
(`fix_missing_cross_links`, working-file branch). -/
def goDeepInsert (lines : List Txt) (refLink : Txt) : Option (List Txt) :=
  match lines.findIdx? (fun l =>
    List.isPrefixOf (T ("## ")) l && hasSub (lowerTxt l) (T ("go deeper"))) with
  | some idx => some (insertAllAt lines (idx + 1) [refLink])
  | Option.none => Option.none

/-- `fix_missing_cross_links`: text-in/text-out plus actions; `dirComps` is
the containing directory, used for the companion-existence checks. -/
def fixMissingCrossLinks (kb : KB) (dirComps : List Txt) (name fname text : Txt)
    (issues : List Issue) : Txt × List FixAction :=
  let relevant := issues.filter (fun i =>
    i.file == name &&
    (hasSub i.message (T ("See also")) || hasSub i.message (T ("Go Deeper"))))
  if relevant.isEmpty then (text, [])
  else if isRefName fname then
    let seeAlsoIssues := relevant.filter (fun i =>
      hasSub i.message (T ("See also")) ||
      hasSub (lowerTxt i.message) (T ("see also")))
    if seeAlsoIssues.isEmpty then (text, [])
    else
      let stem := refStem fname
      if kbExists kb (dirComps ++ [stem ++ T (".md")]) then
        let linkLine :=
          '\n' :: (T ("**See also:** [") ++ displayNameOf stem ++ T ("](") ++
            stem ++ T (".md)") ++ ['\n'])
        (pyRStrip text ++ '\n' :: linkLine,
         [⟨name, T ("appended_see_also"),
           [(T ("detail"), T ("Added See also link to ") ++ stem ++ T (".md"))]⟩])
      else (text, [])
  else
    let goDeeperIssues := relevant.filter (fun i =>
      hasSub i.message (T ("Go Deeper")) && hasSub i.message (T ("ref.md")))
    if goDeeperIssues.isEmpty then (text, [])
    else
      let stem := pyStem fname
      if kbExists kb (dirComps ++ [stem ++ T (".ref.md")]) then
        let refLink := T ("- [") ++ displayNameOf stem ++ T (" Reference](") ++
          stem ++ T (".ref.md) -- quick-lookup version")
        match extractSection (bodyWithoutFM text) (T ("Go Deeper")) with
        | Option.none => (text, [])
        | some _ =>
          match goDeepInsert (linesOf text) refLink with
          | some newLines =>
            (joinLines newLines,
             [⟨name, T ("inserted_ref_link"),
               [(T ("detail"),
                 T ("Added link to ") ++ stem ++ T (".ref.md in Go Deeper"))]⟩])
          | Option.none => (text, [])
      else (text, [])

/-- `line.replace(old, new, 1)` — fuel-indexed scan. -/
def replaceFirstF : Nat → Txt → Txt → Txt → Txt
  | 0, t, _, _ => t
  | Nat.succ n, t, needle, repl =>
    match t with
    | [] => []
    | c :: cs =>
      if List.isPrefixOf needle (c :: cs) then repl ++ (c :: cs).drop needle.length
      else c :: replaceFirstF n cs needle repl

def replaceFirst (hay needle repl : Txt) : Txt :=
  replaceFirstF hay.length hay needle repl

/-- `re.match(r"^-\s+\[ \]\s+" + re.escape(name), line)`. -/
def matchPlanFixLine (name : Txt) (line : Txt) : Bool :=
  match line with
  | '-' :: r1 =>
    if (r1.takeWhile pySpace).isEmpty then false
    else
      match r1.dropWhile pySpace with
      | '[' :: ' ' :: ']' :: r2 =>
        if (r2.takeWhile pySpace).isEmpty then false
        else List.isPrefixOf name (r2.dropWhile pySpace)
      | _ => false
  | _ => false

/-- `fix_curation_plan_checkmarks` applied to an existing plan text. -/
def fcpcRun (kb : KB) (planText : Txt) : Txt × List FixAction :=
  let items := parseCurationPlan planText
  if items.isEmpty then (planText, [])
  else
    let res := items.foldl (fun (st : List Txt × List FixAction) item =>
      if item.pchecked then st
      else
        let slug := slugifyTxt item.pname
        let ex :=
          match resolveComps [kb.kdirName] (item.parea ++ '/' :: (slug ++ T (".md"))) with
          | some rc => kbExists kb rc
          | Option.none => false
        if !ex then st
        else
          match st.1.findIdx? (matchPlanFixLine item.pname) with
          | Option.none => st
          | some idx =>
            (st.1.set idx (replaceFirst (st.1.getD idx []) (T ("- [ ]")) (T ("- [x]"))),
             st.2 ++ [⟨planPathTxt, T ("checked_plan_item"),
               [(T ("detail"),
                 T ("Checked off \x27") ++ item.pname ++ T ("\x27 — file exists: ") ++
                 item.parea ++ '/' :: (slug ++ T (".md")))]⟩]))
      (linesOf planText, [])
    (joinLines res.1, res.2)

/-! ## Orchestrator (`check_kb.run_health_check`) -/

/-- Write a document's text back (the file system mutation of the fixers). -/
def kbSetDoc (kb : KB) (comps : List Txt) (newText : Txt) : KB :=
  match comps with
  | [_, f] =>
    { kb with rootFiles := kb.rootFiles.map (fun d =>
        if d.fname == f then { d with text := newText } else d) }
  | [_, a, f] =>
    { kb with areas := kb.areas.map (fun ad =>
        if ad.aname == a then
          { ad with files := ad.files.map (fun d =>
              if d.fname == f then { d with text := newText } else d) }
        else ad) }
  | _ => kb

def kbGetDoc (kb : KB) (comps : List Txt) : Option Txt :=
  match comps with
  | [_, f] => (rootFile kb f).map KDoc.text
  | [_, a, f] =>
    match areaNamed kb a with
    | some ad => (areaFile ad f).map KDoc.text
    | Option.none => Option.none
  | _ => Option.none

structure HealthReport where
  issues : List Issue
  summary : HealthSummary
  fixes : Option (List FixAction)
deriving DecidableEq, Repr

/-- The issue list of one `run_health_check` invocation (validators in source
order; `check_links=False`, so the network validator is not run), together
with the discovered files and their knowledge-dir-relative paths. -/
def allIssuesOf (kb : KB) : List Issue × List FileEnt × List Txt :=
  let md := discoverMdFiles kb
  let fileList := md.map (fun e => relOf (e.comps.drop 1))
  let perFile := md.flatMap (fun e =>
    let name := pathOf e.comps
    checkFrontmatter name e.text ++
    checkSectionOrdering name e.text ++
    checkCrossReferences kb name e.text e.comps.dropLast ++
    checkSizeBounds name e.text ++
    checkSourceUrls name e.text ++
    checkFreshness kb.today 90 name e.text ++
    checkSectionCompleteness name e.text ++
    checkHeadingHierarchy name e.text ++
    checkGoDeeperLinks name e.fname e.text ++
    checkRefSeeAlso name e.fname e.text ++
    checkReadability name e.text ++
    checkPlaceholderComments name e.text ++
    checkSourceDiversity name e.text ++
    checkCitationGrounding name e.text)
  let structural :=
    checkCoverage kb ++ checkIndexSync kb ++ checkInventoryRegression kb fileList
  let cross :=
    checkManifestSync kb ++ checkCurationPlanSync kb ++
    checkProposalIntegrity kb 60 ++ checkLinkGraph kb ++
    checkDuplicateContent kb ++ checkNamingConventions kb
  (perFile ++ structural ++ cross, md, fileList)

def summaryOf (issues : List Issue) (nFiles : Nat) : HealthSummary :=
  let failFiles := ((issues.filter (fun i => i.severity == sevFail)).map Issue.file).dedup
  { totalFiles := nFiles
    failCount := (issues.filter (fun i => i.severity == sevFail)).length
    warnCount := (issues.filter (fun i => i.severity == sevWarn)).length
    passCount := ((nFiles : Int) - (failFiles.length : Int)).toNat }

/-- `record_snapshot` (append-only history log). -/
def recordSnapshot (kb : KB) (tier1 : Option HealthSummary) (fileList : List Txt) : KB :=
  { kb with history := kb.history ++ [⟨kb.nowStr, tier1, fileList⟩] }

/-- The `fix=True` pass of `run_health_check`: per-file stub and cross-link
fixes (the cross-link fixer re-reads the file the section fixer just wrote),
then the curation-plan checkbox fix. -/
def runFixPass (kb0 : KB) (mdFiles : List FileEnt) (allIssues : List Issue) :
    KB × List FixAction :=
  let st := mdFiles.foldl (fun (st : KB × List FixAction) e =>
    let name := pathOf e.comps
    let fileIssues := allIssues.filter (fun i => i.file == name)
    if fileIssues.isEmpty then st
    else
      let text0 := (kbGetDoc st.1 e.comps).getD e.text
      let r1 := fixMissingSections name text0 fileIssues
      let kb1 := if r1.2.isEmpty then st.1 else kbSetDoc st.1 e.comps r1.1
      let text1 := (kbGetDoc kb1 e.comps).getD r1.1
      let r2 := fixMissingCrossLinks kb1 e.comps.dropLast name e.fname text1 fileIssues
      let kb2 := if r2.2.isEmpty then kb1 else kbSetDoc kb1 e.comps r2.1
      (kb2, st.2 ++ r1.2 ++ r2.2)) (kb0, [])
  let planIssues := allIssues.filter (fun i =>
    hasSub i.message (T ("should be checked off")))
  if planIssues.isEmpty then st
  else
    match st.1.plan with
    | Option.none => st
    | some planText =>
      let r3 := fcpcRun st.1 planText
      ({ st.1 with plan := some r3.1 }, st.2 ++ r3.2)

/-- Python `msg.split(sep, 1)[1]` for a separator known to occur. -/
def afterFirst (hay needle : Txt) : Txt :=
  match findSubIdx hay needle with
  | some i => hay.drop (i + needle.length)
  | Option.none => hay

/-- The `dry_run=True` reporting pass of `run_health_check`. -/
def dryFixesOf (mdFiles : List FileEnt) (allIssues : List Issue) : List FixAction :=
  let perFile := mdFiles.flatMap (fun e =>
    let name := pathOf e.comps
    let fileIssues := allIssues.filter (fun i => i.file == name)
    fileIssues.filterMap (fun i =>
      let msg := i.message
      if hasSub msg (T ("Missing required section:")) then
        some ⟨name, T ("would_insert_stub_section"),
          [(T ("section"), afterFirst msg (T ("Missing required section: ")))]⟩
      else if hasSub msg (T ("See also")) ||
              (hasSub msg (T ("Go Deeper")) && hasSub msg (T ("ref.md"))) then
        some ⟨name, T ("would_insert_cross_link"), [(T ("detail"), msg)]⟩
      else Option.none))
  let planWould := (allIssues.filter (fun i =>
    hasSub i.message (T ("should be checked off")))).map (fun i =>
      FixAction.mk i.file (T ("would_check_plan_item")) [(T ("detail"), i.message)])
  perFile ++ planWould

/-- `run_health_check` (with `_persist_history=True`, `check_links=False`):
the returned report and the knowledge-base state after the run. -/
def runHealthCheck (kb : KB) (fix dryRun : Bool) : HealthReport × KB :=
  let r := allIssuesOf kb
  let allIssues := r.1
  let md := r.2.1
  let fileList := r.2.2
  let summary := summaryOf allIssues md.length
  let fr :=
    if fix || dryRun then
      if dryRun then (some (dryFixesOf md allIssues), kb)
      else
        let fp := runFixPass kb md allIssues
        (some fp.2, fp.1)
    else (Option.none, kb)
  let kb3 := recordSnapshot fr.2 (some summary) fileList
  ({ issues := allIssues, summary := summary, fixes := fr.1 }, kb3)

/-- The document contents (and curation plan) a run can mutate — the
"final file contents" the idempotence claim ranges over. -/
def kbDocs (kb : KB) : List AreaDir × List KDoc × Option Txt :=
  (kb.areas, kb.rootFiles, kb.plan)

/-! ## Utilization store and recommendation classifier
(`utilization.read_utilization`, `check_kb.generate_recommendations`) -/

structure UtilStats where
  count : Nat
  firstRef : Txt
  lastRef : Txt
deriving DecidableEq, Repr

/-- `read_utilization`: fold of the decoded JSONL read events. -/
def readUtilization (kb : KB) : List (Txt × UtilStats) :=
  kb.util.foldl (fun m e =>
    match alGet m e.file with
    | Option.none => alSet m e.file ⟨1, e.timestamp, e.timestamp⟩
    | some s =>
      let f := if txtLtB e.timestamp s.firstRef then e.timestamp else s.firstRef
      let l := if txtLtB s.lastRef e.timestamp then e.timestamp else s.lastRef
      alSet m e.file ⟨s.count + 1, f, l⟩) []

inductive DVal where
  | dn (n : Nat)
  | dt (t : Txt)
  | dfm (v : FMVal)
deriving DecidableEq, Repr

structure Rec where
  rfile : Txt
  rkind : Txt
  reason : Txt
  rdata : List (Txt × DVal)
deriving DecidableEq, Repr

structure RecSummary where
  totalFiles : Nat
  filesWithRecommendations : Nat
  byCategory : List (Txt × Nat)
deriving DecidableEq, Repr

inductive RecResult where
  | skipped (msg : Txt)
  | report (recs : List Rec) (summary : RecSummary)
deriving DecidableEq, Repr

def minTxts : List Txt → Txt
  | [] => []
  | x :: xs => txtListMin x xs

def maxTxts : List Txt → Txt
  | [] => []
  | x :: xs => txtListMax x xs

/-- `rel_path.split("/")[1] if len(parts) >= 3 else ""`. -/
def relAreaName (rel : Txt) : Txt :=
  let parts := splitOnChar '/' rel
  if 3 ≤ parts.length then parts.getD 1 [] else []

def natLeB (a b : Nat) : Bool := a ≤ b

structure AreaRec where
  overviewReads : Nat
  afiles : List (Txt × (Nat × Bool))
deriving DecidableEq, Repr

/-- `_LOW_UTIL_MIN_OVERVIEW_READS`. -/
def LOW_UTIL_MIN_OVERVIEW_READS : Nat := 10

/-- `generate_recommendations` (the `0.1` factor and the float median are
modelled as exact rationals). -/
def generateRecommendations (kb : KB) (minReads minDays : Int) : RecResult :=
  let md := discoverMdFiles kb
  let filePaths : List (Txt × FileEnt) := md.foldl (fun m e =>
    alSet m (kb.kdirName ++ '/' :: relOf (e.comps.drop 1)) e) []
  let utilization := readUtilization kb
  let totalReads : Nat := (utilization.map (fun p => p.2.count)).sum
  if utilization.isEmpty || (totalReads : Int) < minReads then
    RecResult.skipped
      (T ("Insufficient data: ") ++ natTxt totalReads ++ T (" reads (need ") ++
       intTxt minReads ++ T (" reads over ") ++ intTxt minDays ++ T (" days)"))
  else
    let allTimestamps := utilization.flatMap (fun p => [p.2.firstRef, p.2.lastRef])
    let dspan : Int :=
      if allTimestamps.isEmpty then 0
      else daySpan (minTxts allTimestamps) (maxTxts allTimestamps)
    if dspan < minDays then
      RecResult.skipped
        (T ("Insufficient data: ") ++ natTxt totalReads ++ T (" reads over ") ++
         intTxt dspan ++ T (" day(s) (need ") ++ intTxt minReads ++
         T (" reads over ") ++ intTxt minDays ++ T (" days)"))
    else
      let readCounts : List (Txt × Nat) := filePaths.map (fun p =>
        (p.1, match alGet utilization p.1 with
              | some s => s.count
              | Option.none => 0))
      let counts := sortLe natLeB (readCounts.map Prod.snd)
      let mid := counts.length / 2
      let median : ℚ :=
        if counts.length % 2 == 0 && 0 < counts.length then
          ((counts.getD (mid - 1) 0 : ℚ) + (counts.getD mid 0 : ℚ)) / 2
        else if !counts.isEmpty then (counts.getD mid 0 : ℚ)
        else 0
      let areas : List (Txt × AreaRec) := filePaths.foldl (fun m p =>
        let parts := splitOnChar '/' p.1
        if parts.length < 3 then m
        else
          let areaName := parts.getD 1 []
          let filename := parts.getLastD []
          let cur := (alGet m areaName).getD ⟨0, []⟩
          let reads := (alGet readCounts p.1).getD 0
          let isOv := filename == T ("overview.md")
          let cur2 := { cur with afiles := alSet cur.afiles p.1 (reads, isOv) }
          let cur3 := if isOv then { cur2 with overviewReads := reads } else cur2
          alSet m areaName cur3) []
      let depths : List (Txt × FMVal) := filePaths.map (fun p =>
        (p.1, (fmGet (parseFM p.2.text) (T ("depth"))).getD (FMVal.vstr [])))
      let staleFiles : List Txt := filePaths.filterMap (fun p =>
        if median < ((alGet readCounts p.1).getD 0 : ℚ) then
          if !(checkFreshness kb.today 90 (pathOf p.2.comps) p.2.text).isEmpty then
            some p.1
          else Option.none
        else Option.none)
      let keys := sortTxts (filePaths.map Prod.fst)
      -- Priority 1: stale_high_use
      let st1 := keys.foldl (fun (st : List Rec × List Txt) rel =>
        if staleFiles.contains rel then
          let reads := (alGet readCounts rel).getD 0
          (st.1 ++ [⟨rel, T ("stale_high_use"),
            T ("Read ") ++ natTxt reads ++
            T (" times but content is stale -- prioritize freshening"),
            [(T ("read_count"), DVal.dn reads),
             (T ("depth"), DVal.dfm ((alGet depths rel).getD (FMVal.vstr []))),
             (T ("area"), DVal.dt (relAreaName rel))]⟩],
           st.2 ++ [rel])
        else st) ([], [])
      -- Priority 2: expand_depth
      let st2 := keys.foldl (fun (st : List Rec × List Txt) rel =>
        if st.2.contains rel then st
        else if !((alGet depths rel).getD (FMVal.vstr []) ==
                  FMVal.vstr (T ("overview"))) then st
        else
          let reads := (alGet readCounts rel).getD 0
          if 0 < median && 2 * median < (reads : ℚ) then
            (st.1 ++ [⟨rel, T ("expand_depth"),
              T ("Read ") ++ natTxt reads ++
              T (" times but only overview depth -- consider adding working-knowledge file"),
              [(T ("read_count"), DVal.dn reads),
               (T ("depth"), DVal.dt (T ("overview"))),
               (T ("area"), DVal.dt (relAreaName rel))]⟩],
             st.2 ++ [rel])
          else st) st1
      -- Priority 3: low_utilization
      let st3 := (sortLe (fun (a b : Txt × AreaRec) => txtLeB a.1 b.1) areas).foldl
        (fun (st : List Rec × List Txt) ap =>
          let overviewReads := ap.2.overviewReads
          if overviewReads < LOW_UTIL_MIN_OVERVIEW_READS then st
          else
            let threshold : ℚ := (overviewReads : ℚ) * ((1 : ℚ)/10)
            (sortLe (fun (a b : Txt × (Nat × Bool)) => txtLeB a.1 b.1) ap.2.afiles).foldl
              (fun st2 fp =>
                if st2.2.contains fp.1 then st2
                else if fp.2.2 then st2
                else if (fp.2.1 : ℚ) < threshold then
                  (st2.1 ++ [⟨fp.1, T ("low_utilization"),
                    T ("Read ") ++ natTxt fp.2.1 ++ T (" times vs ") ++
                    natTxt overviewReads ++ T (" for ") ++ ap.1 ++
                    T (" overview -- consider demoting or merging"),
                    [(T ("read_count"), DVal.dn fp.2.1),
                     (T ("overview_reads"), DVal.dn overviewReads),
                     (T ("depth"), DVal.dfm ((alGet depths fp.1).getD (FMVal.vstr []))),
                     (T ("area"), DVal.dt ap.1)]⟩],
                   st2.2 ++ [fp.1])
                else st2) st) st2
      -- Priority 4: never_referenced
      let st4 := keys.foldl (fun (st : List Rec × List Txt) rel =>
        if st.2.contains rel then st
        else if (alGet readCounts rel).getD 0 == 0 then
          (st.1 ++ [⟨rel, T ("never_referenced"),
            T ("No reads recorded -- review relevance or discoverability"),
            [(T ("read_count"), DVal.dn 0),
             (T ("depth"), DVal.dfm ((alGet depths rel).getD (FMVal.vstr []))),
             (T ("area"), DVal.dt (relAreaName rel))]⟩],
           st.2 ++ [rel])
        else st) st3
      let recs := st4.1
      let byCategory : List (Txt × Nat) := recs.foldl (fun m r =>
        alSet m r.rkind ((alGet m r.rkind).getD 0 + 1)) []
      RecResult.report recs
        ⟨filePaths.length, recs.length, byCategory⟩

/-! ## Example knowledge-base states

Concrete states used by the witnesses and counterexamples below. -/

def fmWorking : Txt :=
  T ("---\nsources:\n  - https://x.com\nlast_validated: 2025-12-01\nrelevance: core\ndepth: working\n---\n")

def fmOverview : Txt :=
  T ("---\nsources:\n  - https://x.com\nlast_validated: 2025-12-01\nrelevance: core\ndepth: overview\n---\n")

def fmReference : Txt :=
  T ("---\nsources:\n  - https://x.com\nlast_validated: 2025-12-01\nrelevance: core\ndepth: reference\n---\n")

/-- A bare knowledge-base state: empty tree, fixed clock. -/
def baseKB : KB :=
  { kdirName := T ("docs"), areas := [], rootFiles := [], proposals := []
    plan := Option.none, agents := Option.none, claude := Option.none
    history := [], util := [], today := dateOrdinal 2025 12 15
    nowStr := T ("2025-12-15T00:00:00") }

def kbInvSnap : Snapshot :=
  ⟨T ("2025-12-14T00:00:00"), Option.none, [T ("a.md"), T ("b.md"), T ("c.md")]⟩

/-- A state whose only history snapshot lists three files. -/
def kbInv : KB := { baseKB with history := [kbInvSnap] }

/-- The stem the specification's "own stem" denotes: the shared companion
stem (`name[:-len(".ref.md")]` for reference companions, `Path.stem`
otherwise). -/
def ownStem (fname : Txt) : Txt :=
  if isRefName fname then refStem fname else pyStem fname

/-- The claim's pass condition, formalised from the specification's words:
the body contains a "See also" reference (case-insensitive) whose link
target names the document's own stem (`<stem>.md`). -/
def seeAlsoBackRef (fname text : Txt) : Bool :=
  seeAlsoSearch (bodyWithoutFM text) &&
  hasSub (bodyWithoutFM text) (ownStem fname ++ T (".md"))

/-- A depth-`reference` document whose name is not a `.ref.md` name. -/
def refDepthPlainDoc : KDoc :=
  ⟨T ("foo.md"), fmReference ++ T ("\n# Foo\n\ncontent\n")⟩

/-- A well-formed reference companion with a See-also back link. -/
def refGoodText : Txt :=
  fmReference ++ T ("\n# Bidding Ref\n\nSee also [Bidding](bidding.md)\n")

/-- A knowledge-base directory whose area name and file stems are all
`_slugify` outputs (used by the naming-conventions witness). -/
def adNamingGood : AreaDir :=
  ⟨T ("topic-area"),
   [⟨T ("overview.md"), []⟩,
    ⟨T ("alpha-beta.md"), []⟩,
    ⟨T ("alpha-beta.ref.md"), []⟩]⟩

def kbNamingGood : KB := { baseKB with areas := [adNamingGood] }

/-- The Jaccard arm of pass 2 applied to one ordered pair, exactly the
non-companion branch of `dupPass2`. -/
def jacIssue (kb : KB) (pr : DupData × DupData) : Option Issue :=
  if pr.1.shingles.isEmpty || pr.2.shingles.isEmpty then Option.none
  else
    let sim := jaccardQ pr.1.shingles pr.2.shingles
    if (2 : ℚ)/5 < sim then
      some (mkIssue (docPath kb pr.1.darea pr.1.dfname)
        (T ("High similarity (") ++ pctTxt sim ++ T (") between ") ++
         relOf [pr.1.darea, pr.1.dfname] ++ T (" and ") ++
         relOf [pr.2.darea, pr.2.dfname] ++ T (" — consider deduplicating"))
        sevWarn)
    else Option.none

/-- A forty-plus-character paragraph shared verbatim by a working document
and its reference companion. -/
def dupText : Txt := T ("This shared paragraph is exactly the same in both documents.")

/-- A knowledge base whose only two documents are a companion pair with an
identical paragraph. -/
def kbDup : KB := { baseKB with areas := [⟨T ("topic-area"),
  [⟨T ("alpha.md"), dupText⟩, ⟨T ("alpha.ref.md"), dupText⟩]⟩] }

/-! ### The locals of `generate_recommendations`, factored for the theorems -/

/-- The `file_paths` dict of `generate_recommendations`. -/
def recFilePaths (kb : KB) : List (Txt × FileEnt) :=
  (discoverMdFiles kb).foldl (fun m e =>
    alSet m (kb.kdirName ++ '/' :: relOf (e.comps.drop 1)) e) []

def recTotalReads (kb : KB) : Nat :=
  ((readUtilization kb).map (fun p => p.2.count)).sum

def recTimestamps (kb : KB) : List Txt :=
  (readUtilization kb).flatMap (fun p => [p.2.firstRef, p.2.lastRef])

/-- The `day_span` local. -/
def recDspan (kb : KB) : Int :=
  if (recTimestamps kb).isEmpty then 0
  else daySpan (minTxts (recTimestamps kb)) (maxTxts (recTimestamps kb))

/-- The `read_counts` dict. -/
def recReadCounts (kb : KB) : List (Txt × Nat) :=
  (recFilePaths kb).map (fun p =>
    (p.1, match alGet (readUtilization kb) p.1 with
          | some s => s.count
          | Option.none => 0))

def recCounts (kb : KB) : List Nat :=
  sortLe natLeB ((recReadCounts kb).map Prod.snd)

/-- The `median_reads` local (`statistics.median` over the sorted counts). -/
def recMedian (kb : KB) : ℚ :=
  let counts := recCounts kb
  let mid := counts.length / 2
  if counts.length % 2 == 0 && 0 < counts.length then
    ((counts.getD (mid - 1) 0 : ℚ) + (counts.getD mid 0 : ℚ)) / 2
  else if !counts.isEmpty then (counts.getD mid 0 : ℚ)
  else 0

/-- The per-area aggregation (`areas` dict). -/
def recAreas (kb : KB) : List (Txt × AreaRec) :=
  (recFilePaths kb).foldl (fun m p =>
    let parts := splitOnChar '/' p.1
    if parts.length < 3 then m
    else
      let areaName := parts.getD 1 []
      let filename := parts.getLastD []
      let cur := (alGet m areaName).getD ⟨0, []⟩
      let reads := (alGet (recReadCounts kb) p.1).getD 0
      let isOv := filename == T ("overview.md")
      let cur2 := { cur with afiles := alSet cur.afiles p.1 (reads, isOv) }
      let cur3 := if isOv then { cur2 with overviewReads := reads } else cur2
      alSet m areaName cur3) []

/-- The `depths` dict. -/
def recDepths (kb : KB) : List (Txt × FMVal) :=
  (recFilePaths kb).map (fun p =>
    (p.1, (fmGet (parseFM p.2.text) (T ("depth"))).getD (FMVal.vstr [])))

/-- The `stale_files` list. -/
def recStale (kb : KB) : List Txt :=
  (recFilePaths kb).filterMap (fun p =>
    if recMedian kb < ((alGet (recReadCounts kb) p.1).getD 0 : ℚ) then
      if !(checkFreshness kb.today 90 (pathOf p.2.comps) p.2.text).isEmpty then
        some p.1
      else Option.none
    else Option.none)

/-- The sorted key list the priority passes walk. -/
def recKeys (kb : KB) : List Txt := sortTxts ((recFilePaths kb).map Prod.fst)

/-- The state after priority 1 (`stale_high_use`). -/
def recSt1 (kb : KB) : List Rec × List Txt :=
  (recKeys kb).foldl (fun (st : List Rec × List Txt) rel =>
    if (recStale kb).contains rel then
      let reads := (alGet (recReadCounts kb) rel).getD 0
      (st.1 ++ [⟨rel, T ("stale_high_use"),
        T ("Read ") ++ natTxt reads ++
        T (" times but content is stale -- prioritize freshening"),
        [(T ("read_count"), DVal.dn reads),
         (T ("depth"), DVal.dfm ((alGet (recDepths kb) rel).getD (FMVal.vstr []))),
         (T ("area"), DVal.dt (relAreaName rel))]⟩],
       st.2 ++ [rel])
    else st) ([], [])

/-- The `expand_depth` recommendation priority 2 appends for `rel`. -/
def expandRec (kb : KB) (rel : Txt) : Rec :=
  ⟨rel, T ("expand_depth"),
   T ("Read ") ++ natTxt ((alGet (recReadCounts kb) rel).getD 0) ++
   T (" times but only overview depth -- consider adding working-knowledge file"),
   [(T ("read_count"), DVal.dn ((alGet (recReadCounts kb) rel).getD 0)),
    (T ("depth"), DVal.dt (T ("overview"))),
    (T ("area"), DVal.dt (relAreaName rel))]⟩

/-- One step of priority 2 (`expand_depth`). -/
def recSt2Step (kb : KB) (st : List Rec × List Txt) (rel : Txt) : List Rec × List Txt :=
  if st.2.contains rel then st
  else if !((alGet (recDepths kb) rel).getD (FMVal.vstr []) ==
            FMVal.vstr (T ("overview"))) then st
  else
    let reads := (alGet (recReadCounts kb) rel).getD 0
    if 0 < recMedian kb && 2 * recMedian kb < (reads : ℚ) then
      (st.1 ++ [expandRec kb rel], st.2 ++ [rel])
    else st

/-- The state after priority 2. -/
def recSt2 (kb : KB) : List Rec × List Txt :=
  (recKeys kb).foldl (recSt2Step kb) (recSt1 kb)

/-- The state after priority 3 (`low_utilization`). -/
def recSt3 (kb : KB) : List Rec × List Txt :=
  (sortLe (fun (a b : Txt × AreaRec) => txtLeB a.1 b.1) (recAreas kb)).foldl
    (fun (st : List Rec × List Txt) ap =>
      let overviewReads := ap.2.overviewReads
      if overviewReads < LOW_UTIL_MIN_OVERVIEW_READS then st
      else
        let threshold : ℚ := (overviewReads : ℚ) * ((1 : ℚ)/10)
        (sortLe (fun (a b : Txt × (Nat × Bool)) => txtLeB a.1 b.1) ap.2.afiles).foldl
          (fun st2 fp =>
            if st2.2.contains fp.1 then st2
            else if fp.2.2 then st2
            else if (fp.2.1 : ℚ) < threshold then
              (st2.1 ++ [⟨fp.1, T ("low_utilization"),
                T ("Read ") ++ natTxt fp.2.1 ++ T (" times vs ") ++
                natTxt overviewReads ++ T (" for ") ++ ap.1 ++
                T (" overview -- consider demoting or merging"),
                [(T ("read_count"), DVal.dn fp.2.1),
                 (T ("overview_reads"), DVal.dn overviewReads),
                 (T ("depth"), DVal.dfm ((alGet (recDepths kb) fp.1).getD (FMVal.vstr []))),
                 (T ("area"), DVal.dt ap.1)]⟩],
               st2.2 ++ [fp.1])
            else st2) st) (recSt2 kb)

/-- The state after priority 4 (`never_referenced`). -/
def recSt4 (kb : KB) : List Rec × List Txt :=
  (recKeys kb).foldl (fun (st : List Rec × List Txt) rel =>
    if st.2.contains rel then st
    else if (alGet (recReadCounts kb) rel).getD 0 == 0 then
      (st.1 ++ [⟨rel, T ("never_referenced"),
        T ("No reads recorded -- review relevance or discoverability"),
        [(T ("read_count"), DVal.dn 0),
         (T ("depth"), DVal.dfm ((alGet (recDepths kb) rel).getD (FMVal.vstr []))),
         (T ("area"), DVal.dt (relAreaName rel))]⟩],
       st.2 ++ [rel])
    else st) (recSt3 kb)

def recRecs (kb : KB) : List Rec := (recSt4 kb).1

def recByCategory (kb : KB) : List (Txt × Nat) :=
  (recRecs kb).foldl (fun m r => alSet m r.rkind ((alGet m r.rkind).getD 0 + 1)) []

def kbMedianZero : KB :=
  { baseKB with
    areas := [⟨T ("topic-area"),
      [⟨T ("overview.md"), fmOverview⟩,
       ⟨T ("a.md"), fmWorking⟩,
       ⟨T ("b.md"), fmWorking⟩]⟩]
    util := [⟨T ("docs/topic-area/overview.md"), T ("2025-12-10T00:00:00")⟩,
             ⟨T ("docs/topic-area/overview.md"), T ("2025-12-10T01:00:00")⟩,
             ⟨T ("docs/topic-area/overview.md"), T ("2025-12-10T02:00:00")⟩,
             ⟨T ("docs/topic-area/overview.md"), T ("2025-12-10T03:00:00")⟩,
             ⟨T ("docs/topic-area/overview.md"), T ("2025-12-10T04:00:00")⟩] }

def kbExpand : KB :=
  { baseKB with
    areas := [⟨T ("topic-area"),
      [⟨T ("overview.md"), fmOverview⟩,
       ⟨T ("a.md"), fmWorking⟩,
       ⟨T ("b.md"), fmWorking⟩]⟩]
    util := [⟨T ("docs/topic-area/overview.md"), T ("2025-12-10T00:00:00")⟩,
             ⟨T ("docs/topic-area/overview.md"), T ("2025-12-10T01:00:00")⟩,
             ⟨T ("docs/topic-area/overview.md"), T ("2025-12-10T02:00:00")⟩,
             ⟨T ("docs/topic-area/a.md"), T ("2025-12-10T03:00:00")⟩,
             ⟨T ("docs/topic-area/b.md"), T ("2025-12-10T04:00:00")⟩] }

/-! # Theorems -/

lemma fmLines_none_of_few_delims (lines : List Txt)
    (h : lines.countP isDelim < 2) : fmLines lines = Option.none := by
  induction lines with
  | nil => simp [fmLines, splitAtDelim]
  | cons l ls ih =>
    by_cases hd : isDelim l
    · have hcount : ls.countP isDelim = 0 := by
        have := h
        rw [List.countP_cons] at this
        simp [hd] at this
        omega
      have hany : ls.any isDelim = false := by
        rw [List.any_eq_false]
        intro x hx
        have := List.countP_eq_zero.mp hcount x hx
        simpa using this
      simp [fmLines, splitAtDelim, hd, hany]
    · have hcount : (l :: ls).countP isDelim = ls.countP isDelim := by
        rw [List.countP_cons]
        simp [hd]
      rw [hcount] at h
      have := ih h
      simp only [fmLines, splitAtDelim, hd, if_false] at this ⊢
      exact this

/-- C8: for every document text containing fewer than two frontmatter
delimiter lines (lines whose stripped content is `---`), `parse_frontmatter`
returns the empty mapping; the embedded parser is a total function, so no
exception is possible. -/
theorem parse_frontmatter_empty_on_few_delims (text : Txt)
    (h : (linesOf text).countP isDelim < 2) : parseFM text = [] := by
  unfold parseFM parseFMLines
  rw [fmLines_none_of_few_delims (linesOf text) h]

/-- C8 witness: a concrete text with a single delimiter line parses to the
empty mapping. -/
theorem parse_frontmatter_empty_on_few_delims_witness :
    (linesOf (T ("---\ntitle: x\nno closing delimiter"))).countP isDelim < 2 ∧
    parseFM (T ("---\ntitle: x\nno closing delimiter")) = [] :=
  ⟨by decide, parse_frontmatter_empty_on_few_delims _ (by decide)⟩

lemma drop_length_sub_one_getLast {α : Type} (l : List α) (a : α)
    (h : l.getLast? = some a) : l.drop (l.length - 1) = [a] := by
  induction l with
  | nil => simp at h
  | cons x xs ih =>
    cases xs with
    | nil =>
      simp only [List.getLast?_singleton, Option.some.injEq] at h
      simp [h]
    | cons y ys =>
      have h2 : (y :: ys).getLast? = some a := h
      have ihy := ih h2
      have hstep : (x :: y :: ys).drop ((x :: y :: ys).length - 1) =
          (y :: ys).drop ((y :: ys).length - 1) := by
        have h1 : (x :: y :: ys).length - 1 = ((y :: ys).length - 1) + 1 := by
          simp [List.length_cons]
        rw [h1, List.drop_succ_cons]
      rw [hstep, ihy]

lemma readHistory_one_getLast (kb : KB) :
    (readHistory kb 1).getLast? = kb.history.getLast? := by
  unfold readHistory
  simp only [show ((1 : Nat) == 0) = false from rfl, Bool.false_eq_true, if_false]
  cases hh : kb.history.getLast? with
  | none =>
    have hnil : kb.history = [] := by
      cases hc : kb.history with
      | nil => rfl
      | cons x xs =>
        rw [hc] at hh
        rw [List.getLast?_eq_getLast (x :: xs) (by simp)] at hh
        simp at hh
    rw [hnil]
    simp
  | some a =>
    rw [drop_length_sub_one_getLast _ _ hh]
    simp

lemma count_insertLe {α : Type} [BEq α] (le : α → α → Bool) (x a : α) (l : List α) :
    (insertLe le x l).count a = (x :: l).count a := by
  induction l with
  | nil => simp [insertLe]
  | cons y ys ih =>
    simp only [insertLe]
    by_cases h : le x y
    · simp [h]
    · simp only [h, Bool.false_eq_true, if_false]
      rw [List.count_cons, List.count_cons, ih, List.count_cons, List.count_cons]
      omega

lemma count_sortLe {α : Type} [BEq α] (le : α → α → Bool) (a : α) (l : List α) :
    (sortLe le l).count a = l.count a := by
  induction l with
  | nil => rfl
  | cons x xs ih =>
    simp only [sortLe, List.foldr_cons]
    rw [count_insertLe, List.count_cons]
    simp only [sortLe] at ih
    rw [ih, List.count_cons]

lemma count_nodup {α : Type} [BEq α] [LawfulBEq α] (l : List α) (h : l.Nodup) (a : α) :
    l.count a = if a ∈ l then 1 else 0 := by
  induction l with
  | nil => simp
  | cons x xs ih =>
    have hnd := List.nodup_cons.mp h
    rw [List.count_cons, ih hnd.2]
    by_cases hax : a = x
    · subst hax
      simp [hnd.1]
    · have hbeq : (a == x) = false := by simp [hax]
      have hxa : ¬x = a := fun e => hax e.symm
      by_cases hm : a ∈ xs <;> simp [hbeq, hm, hax, hxa, List.mem_cons]

/-- C9: `check_inventory_regression` emits no warning when there is no prior
snapshot; when there is one, it emits exactly one warning per path present in
the most recent snapshot's `file_list` but absent from the current list (the
warning's `file` field names the path), and in particular no warning when
every previously-present path is still present. -/
theorem check_inventory_regression_characterization (kb : KB) (current : List Txt) :
    (kb.history = [] → checkInventoryRegression kb current = []) ∧
    (∀ snap, kb.history.getLast? = some snap →
      (∀ p, ((checkInventoryRegression kb current).map Issue.file).count p =
        (if p ∈ snap.fileList ∧ p ∉ current then 1 else 0)) ∧
      ((∀ p ∈ snap.fileList, p ∈ current) →
        checkInventoryRegression kb current = [])) := by
  constructor
  · intro h
    unfold checkInventoryRegression
    rw [readHistory_one_getLast]
    simp [h]
  · intro snap hsnap
    have hmain : checkInventoryRegression kb current =
        (sortTxts ((snap.fileList.dedup).filter
          (fun f => !(current.contains f)))).map (fun f =>
            mkIssue f
              (T ("File was present in last health check but is now missing: ") ++ f)
              sevWarn) := by
      unfold checkInventoryRegression
      rw [readHistory_one_getLast, hsnap]
    constructor
    · intro p
      rw [hmain, List.map_map]
      have hcomp : (Issue.file ∘ (fun f =>
          mkIssue f (T ("File was present in last health check but is now missing: ") ++ f) sevWarn)) = id := by
        funext f
        rfl
      rw [hcomp, List.map_id]
      unfold sortTxts
      rw [count_sortLe]
      have hnd : ((snap.fileList.dedup).filter (fun f => !(current.contains f))).Nodup :=
        (List.nodup_dedup snap.fileList).filter _
      rw [count_nodup _ hnd]
      by_cases hmem : p ∈ snap.fileList ∧ p ∉ current
      · have hin : p ∈ (snap.fileList.dedup).filter (fun f => !(current.contains f)) := by
          rw [List.mem_filter]
          refine ⟨List.mem_dedup.mpr hmem.1, ?_⟩
          simp [List.contains, List.elem_iff, hmem.2]
        simp [hmem, hin]
      · have hout : p ∉ (snap.fileList.dedup).filter (fun f => !(current.contains f)) := by
          intro hin
          rw [List.mem_filter] at hin
          apply hmem
          refine ⟨List.mem_dedup.mp hin.1, ?_⟩
          have := hin.2
          simp only [List.contains, Bool.not_eq_true'] at this
          intro hc
          rw [(List.elem_iff).mpr hc] at this
          simp at this
        simp [hmem, hout]
    · intro hadd
      rw [hmain]
      have hnil : (snap.fileList.dedup).filter (fun f => !(current.contains f)) = [] := by
        rw [List.filter_eq_nil_iff]
        intro a ha
        have hac : a ∈ current := hadd a (List.mem_dedup.mp ha)
        simp [List.contains, List.elem_iff, hac]
      rw [hnil]
      rfl


/-- C9 witness: with a prior snapshot listing `a.md`, `b.md`, `c.md` and a
current list of `a.md`, `b.md`, exactly one warning names `c.md`. -/
theorem check_inventory_regression_characterization_witness :
    ((checkInventoryRegression kbInv [T ("a.md"), T ("b.md")]).map Issue.file).count
      (T ("c.md")) = 1 ∧
    kbInv.history.getLast? = some kbInvSnap ∧
    T ("c.md") ∈ kbInvSnap.fileList ∧ T ("c.md") ∉ [T ("a.md"), T ("b.md")] := by
  refine ⟨?_, by decide, by decide, by decide⟩
  have h := ((check_inventory_regression_characterization kbInv
    [T ("a.md"), T ("b.md")]).2 kbInvSnap (by decide)).1 (T ("c.md"))
  rw [h]
  decide

/-- C5 amended: restricted to documents whose file name ends in `.ref.md` —
the code's actual trigger, rather than the frontmatter depth — the validator
passes iff the claimed back-reference condition holds. -/
theorem check_ref_see_also_iff (name fname text : Txt)
    (h : isRefName fname = true) :
    checkRefSeeAlso name fname text = [] ↔ seeAlsoBackRef fname text = true := by
  unfold checkRefSeeAlso seeAlsoBackRef ownStem
  rw [h]
  by_cases h1 : seeAlsoSearch (bodyWithoutFM text) <;>
    by_cases h2 : hasSub (bodyWithoutFM text) (refStem fname ++ T (".md"))
  all_goals simp [h, h1, h2]

/-- C5 witness: a well-formed `.ref.md` document with a `See also` link back
to its companion passes the validator. -/
theorem check_ref_see_also_iff_witness :
    isRefName (T ("bidding.ref.md")) = true ∧
    checkRefSeeAlso (T ("kb/docs/area-one/bidding.ref.md")) (T ("bidding.ref.md"))
      refGoodText = [] :=
  ⟨by decide, (check_ref_see_also_iff _ _ _ (by decide)).mpr (by decide)⟩

/-- C5 counterexample: a document whose frontmatter depth is `reference` but
whose name does not end in `.ref.md` passes `check_ref_see_also` with no
"See also" back-reference in its body, so the claim's biconditional over
depth-`reference` documents fails. -/
theorem check_ref_see_also_depth_counterexample :
    depthIs (parseFM refDepthPlainDoc.text) "reference" = true ∧
    checkRefSeeAlso (pathOf [T ("docs"), T ("area-one"), refDepthPlainDoc.fname])
      refDepthPlainDoc.fname refDepthPlainDoc.text = [] ∧
    seeAlsoBackRef refDepthPlainDoc.fname refDepthPlainDoc.text = false := by
  refine ⟨by decide, by decide, by decide⟩

/-! ### Character-class facts for `_slugify` -/

lemma slug_toNat (c : Char) (h : (isLowerAlnum c || c == '-') = true) :
    (97 ≤ c.toNat ∧ c.toNat ≤ 122) ∨ (48 ≤ c.toNat ∧ c.toNat ≤ 57) ∨ c.toNat = 45 := by
  simp only [isLowerAlnum, Bool.or_eq_true, Bool.and_eq_true, decide_eq_true_eq,
    beq_iff_eq] at h
  rcases h with (h | h) | h
  · left
    constructor
    · exact h.1
    · exact h.2
  · right; left
    constructor
    · exact h.1
    · exact h.2
  · right; right
    rw [h]
    rfl

lemma pyLowerChar_fix (c : Char) (h : (isLowerAlnum c || c == '-') = true) :
    pyLowerChar c = c := by
  unfold pyLowerChar
  have := slug_toNat c h
  split
  · omega
  · rfl

lemma pySpace_slug (c : Char) (h : (isLowerAlnum c || c == '-') = true) :
    pySpace c = false := by
  have hn := slug_toNat c h
  by_contra hs
  simp only [Bool.not_eq_false, pySpace, Bool.or_eq_true, beq_iff_eq] at hs
  rcases hs with ((((h1 | h1) | h1) | h1) | h1) | h1 <;>
    (subst h1; revert hn; decide)

lemma underscore_slug (c : Char) (h : (isLowerAlnum c || c == '-') = true) :
    (c == '_') = false := by
  have hn := slug_toNat c h
  by_contra hu
  simp only [Bool.not_eq_false, beq_iff_eq] at hu
  subst hu
  revert hn
  decide

lemma keep_slug (c : Char) (h : (isLowerAlnum c || c == '-') = true) :
    (isLowerAlnum c || pySpace c || c == '-') = true := by
  simp only [Bool.or_eq_true] at h ⊢
  rcases h with h | h
  · left; left; exact h
  · right; exact h

/-! ### Identity lemmas for each `_slugify` stage on already-slug text -/

lemma dropWhile_eq_self_of_all {p : Char → Bool} {t : Txt}
    (h : ∀ c ∈ t, p c = false) : t.dropWhile p = t := by
  cases t with
  | nil => rfl
  | cons a l =>
    rw [List.dropWhile_cons]
    simp [h a (by simp)]

lemma stripWhile_eq_self_of_all {p : Char → Bool} {t : Txt}
    (h : ∀ c ∈ t, p c = false) : stripWhile p t = t := by
  unfold stripWhile
  rw [dropWhile_eq_self_of_all h]
  rw [dropWhile_eq_self_of_all (fun c hc => h c (List.mem_reverse.mp hc))]
  simp

lemma squashSpacesAux_id {t : Txt} (h : ∀ c ∈ t, pySpace c = false) (b : Bool) :
    squashSpacesAux t b = t := by
  induction t generalizing b with
  | nil => rfl
  | cons a l ih =>
    unfold squashSpacesAux
    rw [h a (by simp)]
    simp only [Bool.false_eq_true, if_false]
    rw [ih (fun c hc => h c (by simp [hc]))]

/-- The head of a list, tested against the hyphen. -/
lemma noDoubleHyphen_cons (a : Char) (l : Txt) :
    noDoubleHyphen (a :: l) =
      (!(a == '-' && (l.head? == some '-')) && noDoubleHyphen l) := by
  cases l with
  | nil => simp [noDoubleHyphen]
  | cons b m => simp [noDoubleHyphen]

lemma noDoubleHyphen_tail {a : Char} {l : Txt} (h : noDoubleHyphen (a :: l) = true) :
    noDoubleHyphen l = true := by
  rw [noDoubleHyphen_cons] at h
  simp only [Bool.and_eq_true] at h
  exact h.2

lemma squashHyphensAux_id {t : Txt} (h : noDoubleHyphen t = true) :
    ∀ b, (b = true → (t.head? == some '-') = false) → squashHyphensAux t b = t := by
  induction t with
  | nil => intro b _; rfl
  | cons a l ih =>
    intro b hb
    unfold squashHyphensAux
    by_cases ha : a = '-'
    · subst ha
      have hbf : b = false := by
        cases b with
        | false => rfl
        | true =>
          have := hb rfl
          simp at this
      subst hbf
      simp only [show (('-' : Char) == '-') = true from rfl, if_true,
        Bool.false_eq_true, if_false]
      have hl : noDoubleHyphen l = true := noDoubleHyphen_tail h
      have hhead : (l.head? == some '-') = false := by
        rw [noDoubleHyphen_cons] at h
        simp only [Bool.and_eq_true] at h
        have := h.1
        simpa using this
      rw [ih hl true (fun _ => hhead)]
    · have ha2 : (a == '-') = false := by simp [ha]
      simp only [ha2, Bool.false_eq_true, if_false]
      have hl : noDoubleHyphen l = true := noDoubleHyphen_tail h
      rw [ih hl false (by intro hc; exact absurd hc (by simp))]

lemma filter_eq_self_of_all {p : Char → Bool} {t : Txt}
    (h : ∀ c ∈ t, p c = true) : t.filter p = t :=
  List.filter_eq_self.mpr h


/-! ### Shape of `_slugify` output -/

lemma squashSpacesAux_chars {t : Txt} {b : Bool} :
    ∀ c ∈ squashSpacesAux t b, c = '-' ∨ (c ∈ t ∧ pySpace c = false) := by
  induction t generalizing b with
  | nil => intro c hc; simp [squashSpacesAux] at hc
  | cons a l ih =>
    intro c hc
    unfold squashSpacesAux at hc
    by_cases ha : pySpace a
    · rw [ha] at hc
      by_cases hb : b
      · subst hb
        simp only [if_true] at hc
        rcases ih c hc with h | h
        · left; exact h
        · right; exact ⟨by simp [h.1], h.2⟩
      · simp only [hb] at hc
        simp only [if_true, Bool.false_eq_true, if_false] at hc
        rcases List.mem_cons.mp hc with h | h
        · left; exact h
        · rcases ih c h with h2 | h2
          · left; exact h2
          · right; exact ⟨by simp [h2.1], h2.2⟩
    · rw [show pySpace a = false from by simpa using ha] at hc
      simp only [Bool.false_eq_true, if_false] at hc
      rcases List.mem_cons.mp hc with h | h
      · right
        exact ⟨by simp [h], by rw [h]; simpa using ha⟩
      · rcases ih c h with h2 | h2
        · left; exact h2
        · right; exact ⟨by simp [h2.1], h2.2⟩

lemma squashHyphensAux_chars {t : Txt} {b : Bool} :
    ∀ c ∈ squashHyphensAux t b, c ∈ t := by
  induction t generalizing b with
  | nil => intro c hc; simp [squashHyphensAux] at hc
  | cons a l ih =>
    intro c hc
    unfold squashHyphensAux at hc
    by_cases ha : a == '-'
    · rw [ha] at hc
      by_cases hb : b
      · subst hb
        simp only [if_true] at hc
        exact List.mem_cons.mpr (Or.inr (ih c hc))
      · simp only [hb] at hc
        simp only [if_true, Bool.false_eq_true, if_false] at hc
        rcases List.mem_cons.mp hc with h | h
        · exact List.mem_cons.mpr (Or.inl (by rw [h]; exact (beq_iff_eq.mp ha).symm ▸ rfl))
        · exact List.mem_cons.mpr (Or.inr (ih c h))
    · rw [show (a == '-') = false from by simpa using ha] at hc
      simp only [Bool.false_eq_true, if_false] at hc
      rcases List.mem_cons.mp hc with h | h
      · exact List.mem_cons.mpr (Or.inl h)
      · exact List.mem_cons.mpr (Or.inr (ih c h))

lemma squashHyphensAux_good (t : Txt) :
    ∀ b, noDoubleHyphen (squashHyphensAux t b) = true ∧
      (((squashHyphensAux t true).head? == some '-') = false) := by
  induction t with
  | nil => intro b; constructor <;> simp [squashHyphensAux, noDoubleHyphen]
  | cons a l ih =>
    intro b
    by_cases ha : a = '-'
    · subst ha
      constructor
      · unfold squashHyphensAux
        simp only [show (('-' : Char) == '-') = true from rfl, if_true]
        by_cases hb : b
        · subst hb
          simp only [if_true]
          exact (ih true).1
        · simp only [hb, Bool.false_eq_true, if_false]
          rw [noDoubleHyphen_cons]
          simp only [Bool.and_eq_true]
          refine ⟨?_, (ih true).1⟩
          have := (ih true).2
          simp only [show (('-' : Char) == '-') = true from rfl, Bool.true_and]
          simpa using this
      · unfold squashHyphensAux
        simp only [show (('-' : Char) == '-') = true from rfl, if_true]
        exact (ih true).2
    · have ha2 : (a == '-') = false := by simp [ha]
      constructor
      · unfold squashHyphensAux
        simp only [ha2, Bool.false_eq_true, if_false]
        rw [noDoubleHyphen_cons]
        simp only [Bool.and_eq_true]
        refine ⟨?_, (ih false).1⟩
        simp [ha2]
      · unfold squashHyphensAux
        simp only [ha2, Bool.false_eq_true, if_false]
        simp [ha]

lemma noDoubleHyphen_dropWhile (p : Char → Bool) {t : Txt}
    (h : noDoubleHyphen t = true) : noDoubleHyphen (t.dropWhile p) = true := by
  induction t with
  | nil => simpa using h
  | cons a l ih =>
    rw [List.dropWhile_cons]
    by_cases hp : p a
    · simp only [hp, if_true]
      exact ih (noDoubleHyphen_tail h)
    · simp only [hp, Bool.false_eq_true, if_false]
      exact h

lemma noDoubleHyphen_append_one (l : Txt) (a : Char) :
    noDoubleHyphen (l ++ [a]) = true ↔
      (noDoubleHyphen l = true ∧ ¬(l.getLast? = some '-' ∧ a = '-')) := by
  induction l with
  | nil => simp [noDoubleHyphen]
  | cons b m ih =>
    rw [List.cons_append, noDoubleHyphen_cons, noDoubleHyphen_cons]
    cases m with
    | nil =>
      simp only [List.nil_append, List.head?_cons, List.getLast?_singleton]
      constructor
      · intro h
        simp only [Bool.and_eq_true, Bool.not_eq_true', Bool.and_eq_false_iff] at h
        refine ⟨by simp [noDoubleHyphen], ?_⟩
        rintro ⟨h1, h2⟩
        simp only [Option.some.injEq] at h1
        rcases h.1 with hc | hc
        · rw [h1] at hc; simp at hc
        · rw [h2] at hc
          simp at hc
      · rintro ⟨_, h2⟩
        simp only [Bool.and_eq_true, Bool.not_eq_true', Bool.and_eq_false_iff]
        constructor
        · by_cases hb : b = '-'
          · right
            by_cases haa : a = '-'
            · exact absurd ⟨by rw [hb], haa⟩ h2
            · simp [haa]
          · left; simp [hb]
        · simp [noDoubleHyphen]
    | cons c m2 =>
      simp only [List.cons_append, List.head?_cons] at *
      constructor
      · intro h
        simp only [Bool.and_eq_true] at h
        have h2 := ih.mp (by simpa using h.2)
        refine ⟨?_, ?_⟩
        · simp only [Bool.and_eq_true]
          exact ⟨by simpa using h.1, h2.1⟩
        · have hgl : (b :: c :: m2).getLast? = (c :: m2).getLast? := rfl
          rw [hgl]
          exact h2.2
      · rintro ⟨h1, h2⟩
        simp only [Bool.and_eq_true] at h1 ⊢
        have hgl : (b :: c :: m2).getLast? = (c :: m2).getLast? := rfl
        rw [hgl] at h2
        exact ⟨by simpa using h1.1, ih.mpr ⟨h1.2, h2⟩⟩

lemma noDoubleHyphen_reverse {t : Txt} (h : noDoubleHyphen t = true) :
    noDoubleHyphen t.reverse = true := by
  induction t with
  | nil => simpa using h
  | cons a l ih =>
    rw [List.reverse_cons]
    rw [noDoubleHyphen_append_one]
    have hl := noDoubleHyphen_tail h
    refine ⟨ih hl, ?_⟩
    rintro ⟨h1, h2⟩
    rw [List.getLast?_reverse] at h1
    rw [noDoubleHyphen_cons] at h
    simp only [Bool.and_eq_true, Bool.not_eq_true', Bool.and_eq_false_iff] at h
    rcases h.1 with hc | hc
    · rw [h2] at hc; simp at hc
    · rw [h1] at hc; simp at hc

lemma head_dropWhile_false (p : Char → Bool) (l : Txt) :
    ∀ c, (l.dropWhile p).head? = some c → p c = false := by
  induction l with
  | nil => intro c hc; simp at hc
  | cons a m ih =>
    intro c hc
    rw [List.dropWhile_cons] at hc
    by_cases hp : p a
    · simp only [hp, if_true] at hc
      exact ih c hc
    · simp only [hp, Bool.false_eq_true, if_false, List.head?_cons, Option.some.injEq] at hc
      rw [← hc]
      simpa using hp

lemma getLast_dropWhile (p : Char → Bool) (l : Txt)
    (h : l.dropWhile p ≠ []) : (l.dropWhile p).getLast? = l.getLast? := by
  induction l with
  | nil => simp at h
  | cons a m ih =>
    rw [List.dropWhile_cons]
    by_cases hp : p a
    · simp only [hp, if_true]
      rw [List.dropWhile_cons, if_pos hp] at h
      have hm : m ≠ [] := by
        intro he
        rw [he] at h
        simp at h
      rw [ih h]
      cases m with
      | nil => exact absurd rfl hm
      | cons b m2 => rfl
    · simp [hp]


lemma mem_stripWhile {p : Char → Bool} {t : Txt} {c : Char}
    (h : c ∈ stripWhile p t) : c ∈ t := by
  unfold stripWhile at h
  rw [List.mem_reverse] at h
  have h2 := (List.dropWhile_sublist p).mem h
  rw [List.mem_reverse] at h2
  exact (List.dropWhile_sublist p).mem h2

lemma head_stripWhile_false (p : Char → Bool) (t : Txt) :
    ∀ c, (stripWhile p t).head? = some c → p c = false := by
  intro c hc
  unfold stripWhile at hc
  rw [List.head?_reverse] at hc
  by_cases hB : (t.dropWhile p).reverse.dropWhile p = []
  · rw [hB] at hc
    simp at hc
  · rw [getLast_dropWhile p _ hB] at hc
    rw [List.getLast?_reverse] at hc
    exact head_dropWhile_false p t c hc

lemma getLast_stripWhile_false (p : Char → Bool) (t : Txt) :
    ∀ c, (stripWhile p t).getLast? = some c → p c = false := by
  intro c hc
  unfold stripWhile at hc
  rw [List.getLast?_reverse] at hc
  exact head_dropWhile_false p _ c hc

lemma noDoubleHyphen_stripWhile {p : Char → Bool} {t : Txt}
    (h : noDoubleHyphen t = true) : noDoubleHyphen (stripWhile p t) = true := by
  unfold stripWhile
  exact noDoubleHyphen_reverse (noDoubleHyphen_dropWhile p
    (noDoubleHyphen_reverse (noDoubleHyphen_dropWhile p h)))

lemma slugify_slugForm (s : Txt) : isSlugForm (slugifyTxt s) = true := by
  have hs4 : ∀ c ∈ squashSpaces
      (((pyStrip (s.map pyLowerChar)).map (fun c => if c == '_' then '-' else c)).filter
        (fun c => isLowerAlnum c || pySpace c || c == '-')),
      (isLowerAlnum c || c == '-') = true := by
    intro c hc
    rcases squashSpacesAux_chars c hc with h | h
    · rw [h]; simp
    · have hk := (List.mem_filter.mp h.1).2
      simp only [Bool.or_eq_true] at hk ⊢
      rcases hk with hk | hk
      · rcases hk with hk | hk
        · left; exact hk
        · rw [h.2] at hk
          exact absurd hk (by simp)
      · right; exact hk
  have hs5 : ∀ c ∈ slugifyTxt s, (isLowerAlnum c || c == '-') = true := by
    intro c hc
    unfold slugifyTxt at hc
    exact hs4 c (squashHyphensAux_chars c (mem_stripWhile hc))
  have hnd : noDoubleHyphen (slugifyTxt s) = true := by
    unfold slugifyTxt
    exact noDoubleHyphen_stripWhile ((squashHyphensAux_good _ false).1)
  have hh := head_stripWhile_false (fun c => c == '-')
    (squashHyphens (squashSpaces
      (((pyStrip (s.map pyLowerChar)).map (fun c => if c == '_' then '-' else c)).filter
        (fun c => isLowerAlnum c || pySpace c || c == '-'))))
  have hl := getLast_stripWhile_false (fun c => c == '-')
    (squashHyphens (squashSpaces
      (((pyStrip (s.map pyLowerChar)).map (fun c => if c == '_' then '-' else c)).filter
        (fun c => isLowerAlnum c || pySpace c || c == '-'))))
  unfold isSlugForm
  simp only [Bool.and_eq_true]
  refine ⟨⟨⟨List.all_eq_true.mpr hs5, hnd⟩, ?_⟩, ?_⟩
  · cases hcase : (slugifyTxt s).head? with
    | none => rfl
    | some c =>
      have := hh c (by rw [← hcase]; rfl)
      simpa using this
  · cases hcase : (slugifyTxt s).getLast? with
    | none => rfl
    | some c =>
      have := hl c (by rw [← hcase]; rfl)
      simpa using this

lemma stripWhile_eq_self_of_ends {p : Char → Bool} {t : Txt}
    (hh : ∀ c, t.head? = some c → p c = false)
    (hl : ∀ c, t.getLast? = some c → p c = false) : stripWhile p t = t := by
  unfold stripWhile
  have h1 : t.dropWhile p = t := by
    cases t with
    | nil => rfl
    | cons a l =>
      rw [List.dropWhile_cons]
      simp [hh a rfl]
  rw [h1]
  have h2 : t.reverse.dropWhile p = t.reverse := by
    cases hr : t.reverse with
    | nil => rfl
    | cons b m =>
      rw [List.dropWhile_cons]
      have hb : t.getLast? = some b := by
        rw [← List.head?_reverse, hr]
        rfl
      simp [hl b hb]
  rw [h2, List.reverse_reverse]

lemma slugForm_fixed {t : Txt} (h : isSlugForm t = true) : slugifyTxt t = t := by
  unfold isSlugForm at h
  simp only [Bool.and_eq_true] at h
  obtain ⟨⟨⟨hall, hnd⟩, hh⟩, hl⟩ := h
  have hslug : ∀ c ∈ t, (isLowerAlnum c || c == '-') = true := List.all_eq_true.mp hall
  rw [show slugifyTxt t =
      stripWhile (fun c => c == '-')
        (squashHyphens (squashSpaces
          (((pyStrip (t.map pyLowerChar)).map (fun c => if c == '_' then '-' else c)).filter
            (fun c => isLowerAlnum c || pySpace c || c == '-')))) from rfl]
  have e1 : t.map pyLowerChar = t := by
    have : t.map pyLowerChar = t.map id :=
      List.map_congr_left (fun c hc => pyLowerChar_fix c (hslug c hc))
    rw [this, List.map_id]
  rw [e1]
  have e2 : pyStrip t = t :=
    stripWhile_eq_self_of_all (fun c hc => pySpace_slug c (hslug c hc))
  rw [e2]
  have e3 : t.map (fun c => if c == '_' then '-' else c) = t := by
    have : t.map (fun c => if c == '_' then '-' else c) = t.map id :=
      List.map_congr_left (fun c hc => by
        simp only [underscore_slug c (hslug c hc), Bool.false_eq_true, if_false, id])
    rw [this, List.map_id]
  rw [e3]
  have e4 : t.filter (fun c => isLowerAlnum c || pySpace c || c == '-') = t :=
    filter_eq_self_of_all (fun c hc => keep_slug c (hslug c hc))
  rw [e4]
  have e5 : squashSpaces t = t :=
    squashSpacesAux_id (fun c hc => pySpace_slug c (hslug c hc)) false
  rw [e5]
  have e6 : squashHyphens t = t :=
    squashHyphensAux_id hnd false (by intro hc; exact absurd hc (by simp))
  rw [e6]
  refine stripWhile_eq_self_of_ends ?_ ?_
  · intro c hc
    rw [hc] at hh
    simpa using hh
  · intro c hc
    rw [hc] at hl
    simpa using hl

lemma slugify_idem (s : Txt) : slugifyTxt (slugifyTxt s) = slugifyTxt s :=
  slugForm_fixed (slugify_slugForm s)

lemma mem_insertLe {α : Type} (le : α → α → Bool) (x : α) (l : List α) (a : α) :
    a ∈ insertLe le x l ↔ a = x ∨ a ∈ l := by
  induction l with
  | nil => simp [insertLe]
  | cons b m ih =>
    unfold insertLe
    by_cases hle : le x b
    · simp [hle]
    · simp only [hle, Bool.false_eq_true, if_false, List.mem_cons, ih]
      tauto

lemma mem_sortLe {α : Type} (le : α → α → Bool) (l : List α) (a : α) :
    a ∈ sortLe le l ↔ a ∈ l := by
  induction l with
  | nil => simp [sortLe]
  | cons b m ih =>
    unfold sortLe at *
    rw [List.foldr_cons, mem_insertLe, ih, List.mem_cons]

lemma checkNamingConventions_nil (kb : KB)
    (h1 : ∀ ad ∈ kb.areas, isHiddenArea ad.aname = false →
      ∃ s0, ad.aname = slugifyTxt s0)
    (h2 : ∀ ad ∈ kb.areas, isHiddenArea ad.aname = false → ∀ d ∈ mdDocs ad,
      (d.fname = T ("overview.md") → False) → (d.fname = T ("index.md") → False) →
      ∃ s0, (if isRefName d.fname then refStem d.fname else pyStem d.fname) = slugifyTxt s0) :
    checkNamingConventions kb = [] := by
  unfold checkNamingConventions
  rw [List.flatMap_eq_nil_iff]
  intro ad had
  rw [List.mem_filter] at had
  have hmem : ad ∈ kb.areas := (mem_sortLe leAreas kb.areas ad).mp had.1
  have hhid : isHiddenArea ad.aname = false := by
    have := had.2
    simpa using this
  obtain ⟨s0, hs0⟩ := h1 ad hmem hhid
  have hdir : (ad.aname == slugifyTxt ad.aname) = true := by
    rw [hs0, slugify_idem]
    exact beq_self_eq_true _
  simp only [hdir, if_true]
  have hfiles : (mdDocs ad).filterMap (fun d =>
      if d.fname == T ("overview.md") || d.fname == T ("index.md") then Option.none
      else
        let stem := if isRefName d.fname then refStem d.fname else pyStem d.fname
        if stem == slugifyTxt stem then Option.none
        else
          some (mkIssue (docPath kb ad.aname d.fname)
            (T ("Filename \x27") ++ d.fname ++
             T ("\x27 doesn\x27t follow naming conventions — expected \x27") ++
             slugifyTxt (if isRefName d.fname then refStem d.fname else pyStem d.fname) ++
             T ("\x27")) sevWarn)) = [] := by
    rw [List.filterMap_eq_nil_iff]
    intro d hd
    by_cases hov1 : d.fname = T ("overview.md")
    · simp [hov1]
    by_cases hov2 : d.fname = T ("index.md")
    · simp [hov2]
    obtain ⟨s1, hs1⟩ := h2 ad hmem hhid d hd (fun he => hov1 he) (fun he => hov2 he)
    have hcond : (d.fname == T ("overview.md") || d.fname == T ("index.md")) = false := by
      simp [hov1, hov2]
    have hstem : ((if isRefName d.fname then refStem d.fname else pyStem d.fname) ==
        slugifyTxt (if isRefName d.fname then refStem d.fname else pyStem d.fname)) = true := by
      rw [hs1, slugify_idem]
      exact beq_self_eq_true _
    simp only [hcond, Bool.false_eq_true, if_false]
    simp only [hstem, if_true]
  simp only [List.nil_append]
  exact hfiles


/-- C10: `_slugify` is idempotent and its output is in slug form (only
lowercase alphanumerics and hyphens, no two adjacent hyphens, no hyphen at
either end); consequently `check_naming_conventions` emits no warning on a
knowledge base whose visible area names and non-exempt file stems are all
`_slugify` outputs. -/
theorem slugify_idempotent_naming_clean :
    (∀ s : Txt, slugifyTxt (slugifyTxt s) = slugifyTxt s ∧
      isSlugForm (slugifyTxt s) = true) ∧
    (∀ kb : KB,
      (∀ ad ∈ kb.areas, isHiddenArea ad.aname = false →
        ∃ s0, ad.aname = slugifyTxt s0) →
      (∀ ad ∈ kb.areas, isHiddenArea ad.aname = false → ∀ d ∈ mdDocs ad,
        (d.fname = T ("overview.md") → False) → (d.fname = T ("index.md") → False) →
        ∃ s0, (if isRefName d.fname then refStem d.fname else pyStem d.fname) =
          slugifyTxt s0) →
      checkNamingConventions kb = []) :=
  ⟨fun s => ⟨slugify_idem s, slugify_slugForm s⟩,
   fun kb h1 h2 => checkNamingConventions_nil kb h1 h2⟩

/-- C10 witness: idempotence on a concrete string, and a concrete
knowledge base with slug-form names on which the naming check is silent. -/
theorem slugify_idempotent_naming_clean_witness :
    slugifyTxt (slugifyTxt (T ("My _Notes!"))) = slugifyTxt (T ("My _Notes!")) ∧
    checkNamingConventions kbNamingGood = [] := by
  constructor
  · exact (slugify_idempotent_naming_clean.1 (T ("My _Notes!"))).1
  · refine slugify_idempotent_naming_clean.2 kbNamingGood ?_ ?_
    · intro ad had _
      have hareas : kbNamingGood.areas = [adNamingGood] := rfl
      rw [hareas, List.mem_singleton] at had
      subst had
      exact ⟨T ("topic-area"), by decide⟩
    · intro ad had _ d hd h3 h4
      have hareas : kbNamingGood.areas = [adNamingGood] := rfl
      rw [hareas, List.mem_singleton] at had
      subst had
      have hms : mdDocs adNamingGood =
          [⟨T ("alpha-beta.md"), []⟩, ⟨T ("alpha-beta.ref.md"), []⟩,
           ⟨T ("overview.md"), []⟩] := by decide
      rw [hms] at hd
      rcases List.mem_cons.mp hd with he | hd2
      · rw [he]
        exact ⟨T ("alpha-beta"), by decide⟩
      rcases List.mem_cons.mp hd2 with he | hd3
      · rw [he]
        exact ⟨T ("alpha-beta"), by decide⟩
      rcases List.mem_cons.mp hd3 with he | hd4
      · exact absurd (by rw [he]) h3
      · simp at hd4


lemma filterMap_guard {α β : Type} (p : α → Bool) (f : α → Option β) (l : List α) :
    l.filterMap (fun x => if p x then Option.none else f x) =
      (l.filter (fun x => !p x)).filterMap f := by
  induction l with
  | nil => rfl
  | cons a m ih =>
    rw [List.filterMap_cons, List.filter_cons]
    by_cases hp : p a
    · simp only [hp, if_true, Bool.not_true, Bool.false_eq_true, if_false]
      exact ih
    · simp only [hp, Bool.false_eq_true, if_false, Bool.not_false, if_true,
        List.filterMap_cons]
      rw [ih]

/-- C3 amended: pass 2 of `check_duplicate_content` (the Jaccard scan)
excludes companion pairs — it equals the same scan run over only the
non-companion ordered pairs.  Pass 1 (exact paragraph duplicates) has no
such exclusion; see the counterexample. -/
theorem dup_pass2_excludes_companions (kb : KB) (dd : List DupData) :
    dupPass2 kb dd =
      ((ordPairs dd).filter (fun pr => !ddCompanion pr.1 pr.2)).filterMap
        (jacIssue kb) := by
  have h : dupPass2 kb dd = (ordPairs dd).filterMap
      (fun pr => if ddCompanion pr.1 pr.2 then Option.none else jacIssue kb pr) := rfl
  rw [h, filterMap_guard]

/-- C3 counterexample: `alpha.md` and `alpha.ref.md` are a companion pair,
yet `check_duplicate_content` on a knowledge base where they share an exact
paragraph emits an exact-duplicate warning for that very pair (pass 1 does
not exclude companions). -/
theorem dup_companion_exact_counterexample :
    isCompanionNames (T ("alpha.md")) (T ("alpha.ref.md")) = true ∧
    checkDuplicateContent kbDup =
      [mkIssue (T ("kb/docs/topic-area/alpha.md"))
        (T ("Exact duplicate paragraph found in topic-area/alpha.md and topic-area/alpha.ref.md"))
        sevWarn] := by
  constructor
  · decide
  · decide


lemma generateRecommendations_eq (kb : KB) (minReads minDays : Int) :
    generateRecommendations kb minReads minDays =
      if (readUtilization kb).isEmpty || ((recTotalReads kb : Int) < minReads) then
        RecResult.skipped
          (T ("Insufficient data: ") ++ natTxt (recTotalReads kb) ++ T (" reads (need ") ++
           intTxt minReads ++ T (" reads over ") ++ intTxt minDays ++ T (" days)"))
      else if recDspan kb < minDays then
        RecResult.skipped
          (T ("Insufficient data: ") ++ natTxt (recTotalReads kb) ++ T (" reads over ") ++
           intTxt (recDspan kb) ++ T (" day(s) (need ") ++ intTxt minReads ++
           T (" reads over ") ++ intTxt minDays ++ T (" days)"))
      else
        RecResult.report (recRecs kb)
          ⟨(recFilePaths kb).length, (recRecs kb).length, recByCategory kb⟩ := rfl

lemma alKeys_alSet {α : Type} (m : List (Txt × α)) (k : Txt) (v : α) :
    alKeys (alSet m k v) = alKeys m ∨
      (alKeys (alSet m k v) = alKeys m ++ [k] ∧ k ∉ alKeys m) := by
  induction m with
  | nil =>
    right
    exact ⟨rfl, by simp [alKeys]⟩
  | cons p rest ih =>
    unfold alSet
    by_cases hp : p.1 == k
    · left
      simp [hp, alKeys]
    · rcases ih with h | ⟨h, hk⟩
      · left
        simp only [hp, Bool.false_eq_true, if_false]
        simp only [alKeys, List.map_cons] at h ⊢
        rw [h]
      · right
        constructor
        · simp only [hp, Bool.false_eq_true, if_false]
          simp only [alKeys, List.map_cons] at h ⊢
          rw [h, List.cons_append]
        · simp only [alKeys, List.map_cons, List.mem_cons]
          rintro (he | hm)
          · rw [he] at hp
            simp at hp
          · exact hk hm

lemma nodup_alKeys_alSet {α : Type} (m : List (Txt × α)) (k : Txt) (v : α)
    (h : (alKeys m).Nodup) : (alKeys (alSet m k v)).Nodup := by
  rcases alKeys_alSet m k v with he | ⟨he, hk⟩
  · rw [he]; exact h
  · rw [he]
    exact h.append (List.nodup_singleton k)
      (fun x hx hmem => by
        rw [List.mem_singleton] at hmem
        exact hk (hmem ▸ hx))

lemma nodup_alKeys_foldl_alSet {α γ : Type} (key : γ → Txt) (f : γ → α) (l : List γ) :
    ∀ m0 : List (Txt × α), (alKeys m0).Nodup →
      (alKeys (l.foldl (fun m e => alSet m (key e) (f e)) m0)).Nodup := by
  induction l with
  | nil => intro m0 h; exact h
  | cons e es ih =>
    intro m0 h
    rw [List.foldl_cons]
    exact ih (alSet m0 (key e) (f e)) (nodup_alKeys_alSet m0 (key e) (f e) h)

lemma nodup_insertLe {α : Type} (le : α → α → Bool) (x : α) (l : List α)
    (h : l.Nodup) (hx : x ∉ l) : (insertLe le x l).Nodup := by
  induction l with
  | nil => simp [insertLe]
  | cons y ys ih =>
    unfold insertLe
    by_cases hle : le x y
    · simp only [hle, if_true]
      exact List.nodup_cons.mpr ⟨hx, h⟩
    · simp only [hle, Bool.false_eq_true, if_false]
      have h2 := List.nodup_cons.mp h
      refine List.nodup_cons.mpr ⟨?_, ih h2.2 (fun hm => hx (List.mem_cons.mpr (Or.inr hm)))⟩
      intro hy
      rcases (mem_insertLe le x ys y).mp hy with he | hm
      · exact hx (he ▸ List.mem_cons_self y ys)
      · exact h2.1 hm

lemma nodup_sortLe {α : Type} (le : α → α → Bool) (l : List α)
    (h : l.Nodup) : (sortLe le l).Nodup := by
  induction l with
  | nil => simp [sortLe]
  | cons x xs ih =>
    have h2 := List.nodup_cons.mp h
    unfold sortLe
    rw [List.foldr_cons]
    refine nodup_insertLe le x _ (ih h2.2) (fun hm => h2.1 ?_)
    have : x ∈ sortLe le xs := hm
    exact (mem_sortLe le xs x).mp this

lemma nodup_recKeys (kb : KB) : (recKeys kb).Nodup := by
  unfold recKeys sortTxts
  refine nodup_sortLe txtLeB _ ?_
  have h : (recFilePaths kb).map Prod.fst = alKeys (recFilePaths kb) := rfl
  rw [h]
  exact nodup_alKeys_foldl_alSet
    (fun e => kb.kdirName ++ '/' :: relOf (e.comps.drop 1)) (fun e => e)
    (discoverMdFiles kb) [] (by simp [alKeys])

lemma foldl_recs_mono {γ : Type} (step : (List Rec × List Txt) → γ → (List Rec × List Txt))
    (hstep : ∀ st x r, r ∈ st.1 → r ∈ (step st x).1)
    (l : List γ) (st0 : List Rec × List Txt) (r : Rec) (hr : r ∈ st0.1) :
    r ∈ (l.foldl step st0).1 := by
  induction l generalizing st0 with
  | nil => exact hr
  | cons x xs ih =>
    rw [List.foldl_cons]
    exact ih (step st0 x) (hstep st0 x r hr)

lemma recSt2Step_mono (kb : KB) :
    ∀ st x r, r ∈ st.1 → r ∈ (recSt2Step kb st x).1 := by
  intro st x r hr
  unfold recSt2Step
  by_cases h1 : st.2.contains x
  · simp only [h1, if_true]
    exact hr
  · simp only [h1, Bool.false_eq_true, if_false]
    by_cases h2 : (!((alGet (recDepths kb) x).getD (FMVal.vstr []) ==
        FMVal.vstr (T ("overview")))) = true
    · simp only [h2, if_true]
      exact hr
    · simp only [h2, Bool.false_eq_true, if_false]
      by_cases h3 : (decide (0 < recMedian kb) &&
          decide (2 * recMedian kb < (((alGet (recReadCounts kb) x).getD 0 : Nat) : ℚ))) = true
      · show r ∈ (if (decide (0 < recMedian kb) &&
            decide (2 * recMedian kb < (((alGet (recReadCounts kb) x).getD 0 : Nat) : ℚ))) = true
            then (st.1 ++ [expandRec kb x], st.2 ++ [x]) else st).1
        rw [if_pos h3]
        exact List.mem_append_left _ hr
      · show r ∈ (if (decide (0 < recMedian kb) &&
            decide (2 * recMedian kb < (((alGet (recReadCounts kb) x).getD 0 : Nat) : ℚ))) = true
            then (st.1 ++ [expandRec kb x], st.2 ++ [x]) else st).1
        rw [if_neg h3]
        exact hr

lemma st2_fold_mem (kb : KB) (keys : List Txt) (rel : Txt)
    (hdepth : (alGet (recDepths kb) rel).getD (FMVal.vstr []) =
      FMVal.vstr (T ("overview")))
    (hmed : 0 < recMedian kb)
    (hreads : 2 * recMedian kb < (((alGet (recReadCounts kb) rel).getD 0 : Nat) : ℚ)) :
    ∀ st0 : List Rec × List Txt, rel ∈ keys → keys.Nodup → rel ∉ st0.2 →
      expandRec kb rel ∈ (keys.foldl (recSt2Step kb) st0).1 := by
  induction keys with
  | nil => intro st0 hmem _ _; simp at hmem
  | cons k ks ih =>
    intro st0 hmem hnodup hnotin
    rw [List.foldl_cons]
    by_cases hk : k = rel
    · subst hk
      have hc : (st0.2.contains k) = false := by
        by_contra hcc
        rw [Bool.not_eq_false] at hcc
        exact hnotin (List.elem_iff.mp hcc)
      have hd : (!((alGet (recDepths kb) k).getD (FMVal.vstr []) ==
          FMVal.vstr (T ("overview")))) = false := by
        rw [hdepth]
        simp
      have hcond : (decide (0 < recMedian kb) &&
          decide (2 * recMedian kb < (((alGet (recReadCounts kb) k).getD 0 : Nat) : ℚ))) = true := by
        rw [decide_eq_true hmed, decide_eq_true hreads]
        rfl
      have hstep : recSt2Step kb st0 k = (st0.1 ++ [expandRec kb k], st0.2 ++ [k]) := by
        unfold recSt2Step
        rw [hc]
        simp only [Bool.false_eq_true, if_false]
        rw [hd]
        simp only [Bool.false_eq_true, if_false]
        show (if (decide (0 < recMedian kb) &&
            decide (2 * recMedian kb < (((alGet (recReadCounts kb) k).getD 0 : Nat) : ℚ))) = true
            then (st0.1 ++ [expandRec kb k], st0.2 ++ [k]) else st0) =
          (st0.1 ++ [expandRec kb k], st0.2 ++ [k])
        rw [if_pos hcond]
      rw [hstep]
      exact foldl_recs_mono (recSt2Step kb) (recSt2Step_mono kb) ks _ _
        (List.mem_append_right _ (List.mem_singleton_self _))
    · have hmem2 : rel ∈ ks := by
        rcases List.mem_cons.mp hmem with he | hm
        · exact absurd he.symm hk
        · exact hm
      have hnodup2 : ks.Nodup := (List.nodup_cons.mp hnodup).2
      have hnotin2 : rel ∉ (recSt2Step kb st0 k).2 := by
        unfold recSt2Step
        by_cases h1 : st0.2.contains k
        · simp only [h1, if_true]
          exact hnotin
        · simp only [h1, Bool.false_eq_true, if_false]
          by_cases h2 : (!((alGet (recDepths kb) k).getD (FMVal.vstr []) ==
              FMVal.vstr (T ("overview")))) = true
          · simp only [h2, if_true]
            exact hnotin
          · simp only [h2, Bool.false_eq_true, if_false]
            by_cases h3 : (decide (0 < recMedian kb) &&
                decide (2 * recMedian kb < (((alGet (recReadCounts kb) k).getD 0 : Nat) : ℚ))) = true
            · show rel ∉ (if (decide (0 < recMedian kb) &&
                  decide (2 * recMedian kb < (((alGet (recReadCounts kb) k).getD 0 : Nat) : ℚ))) = true
                  then (st0.1 ++ [expandRec kb k], st0.2 ++ [k]) else st0).2
              rw [if_pos h3]
              intro hm
              rcases List.mem_append.mp hm with hm2 | hm2
              · exact hnotin hm2
              · rw [List.mem_singleton] at hm2
                exact hk hm2.symm
            · show rel ∉ (if (decide (0 < recMedian kb) &&
                  decide (2 * recMedian kb < (((alGet (recReadCounts kb) k).getD 0 : Nat) : ℚ))) = true
                  then (st0.1 ++ [expandRec kb k], st0.2 ++ [k]) else st0).2
              rw [if_neg h3]
              exact hnotin
      exact ih (recSt2Step kb st0 k) hmem2 hnodup2 hnotin2

lemma recSt3_mono (kb : KB) (r : Rec) (hr : r ∈ (recSt2 kb).1) : r ∈ (recSt3 kb).1 := by
  unfold recSt3
  refine foldl_recs_mono _ ?_ _ _ r hr
  intro st ap r2 hr2
  show r2 ∈ (if ap.2.overviewReads < LOW_UTIL_MIN_OVERVIEW_READS then st
    else (sortLe (fun (a b : Txt × (Nat × Bool)) => txtLeB a.1 b.1) ap.2.afiles).foldl
      (fun st2 fp =>
        if st2.2.contains fp.1 then st2
        else if fp.2.2 then st2
        else if (fp.2.1 : ℚ) < (ap.2.overviewReads : ℚ) * ((1 : ℚ)/10) then
          (st2.1 ++ [⟨fp.1, T ("low_utilization"),
            T ("Read ") ++ natTxt fp.2.1 ++ T (" times vs ") ++
            natTxt ap.2.overviewReads ++ T (" for ") ++ ap.1 ++
            T (" overview -- consider demoting or merging"),
            [(T ("read_count"), DVal.dn fp.2.1),
             (T ("overview_reads"), DVal.dn ap.2.overviewReads),
             (T ("depth"), DVal.dfm ((alGet (recDepths kb) fp.1).getD (FMVal.vstr []))),
             (T ("area"), DVal.dt ap.1)]⟩],
           st2.2 ++ [fp.1])
        else st2) st).1
  by_cases h1 : ap.2.overviewReads < LOW_UTIL_MIN_OVERVIEW_READS
  · rw [if_pos h1]
    exact hr2
  · rw [if_neg h1]
    refine foldl_recs_mono _ ?_ _ _ r2 hr2
    intro st2 fp r3 hr3
    by_cases h2 : st2.2.contains fp.1
    · simp only [h2, if_true]
      exact hr3
    · simp only [h2, Bool.false_eq_true, if_false]
      by_cases h3 : fp.2.2
      · simp only [h3, if_true]
        exact hr3
      · simp only [h3, Bool.false_eq_true, if_false]
        by_cases h4 : (fp.2.1 : ℚ) < (ap.2.overviewReads : ℚ) * ((1 : ℚ)/10)
        · rw [if_pos h4]
          exact List.mem_append_left _ hr3
        · rw [if_neg h4]
          exact hr3

lemma recSt4_mono (kb : KB) (r : Rec) (hr : r ∈ (recSt3 kb).1) : r ∈ (recSt4 kb).1 := by
  unfold recSt4
  refine foldl_recs_mono _ ?_ _ _ r hr
  intro st rel r2 hr2
  by_cases h1 : st.2.contains rel
  · simp only [h1, if_true]
    exact hr2
  · simp only [h1, Bool.false_eq_true, if_false]
    by_cases h2 : ((alGet (recReadCounts kb) rel).getD 0 == 0) = true
    · simp only [h2, if_true]
      exact List.mem_append_left _ hr2
    · simp only [h2, Bool.false_eq_true, if_false]
      exact hr2

/-- C6 amended: past the gate, a document whose frontmatter depth is
`overview`, whose read count exceeds twice the median, that was not claimed
by the `stale_high_use` pass — provided the median is positive, a condition
the specification omits — receives an `expand_depth` recommendation. -/
theorem expand_depth_positive_median (kb : KB) (minReads minDays : Int) (rel : Txt)
    (hne : (readUtilization kb).isEmpty = false)
    (hreadsGate : ¬ ((recTotalReads kb : Int) < minReads))
    (hspan : ¬ (recDspan kb < minDays))
    (hrel : rel ∈ recKeys kb)
    (hstale : rel ∉ (recSt1 kb).2)
    (hdepth : (alGet (recDepths kb) rel).getD (FMVal.vstr []) =
      FMVal.vstr (T ("overview")))
    (hmed : 0 < recMedian kb)
    (hreads : 2 * recMedian kb < (((alGet (recReadCounts kb) rel).getD 0 : Nat) : ℚ)) :
    generateRecommendations kb minReads minDays =
      RecResult.report (recRecs kb)
        ⟨(recFilePaths kb).length, (recRecs kb).length, recByCategory kb⟩ ∧
    expandRec kb rel ∈ recRecs kb := by
  constructor
  · rw [generateRecommendations_eq]
    rw [if_neg ?_, if_neg hspan]
    intro hor
    rcases Bool.or_eq_true _ _ |>.mp hor with h | h
    · rw [hne] at h
      exact absurd h (by simp)
    · rw [decide_eq_true_eq] at h
      exact hreadsGate h
  · have h2 : expandRec kb rel ∈ (recSt2 kb).1 :=
      st2_fold_mem kb (recKeys kb) rel hdepth hmed hreads (recSt1 kb) hrel
        (nodup_recKeys kb) hstale
    exact recSt4_mono kb _ (recSt3_mono kb _ h2)

/-- C6 witness: on a knowledge base with a positive median where the
overview document is read more than twice the median, the pipeline reports
and includes the `expand_depth` recommendation for it. -/
theorem expand_depth_positive_median_witness :
    (readUtilization kbExpand).isEmpty = false ∧
    (generateRecommendations kbExpand 0 0 =
      RecResult.report (recRecs kbExpand)
        ⟨(recFilePaths kbExpand).length, (recRecs kbExpand).length,
         recByCategory kbExpand⟩ ∧
     expandRec kbExpand (T ("docs/topic-area/overview.md")) ∈ recRecs kbExpand) :=
  ⟨by decide,
   expand_depth_positive_median kbExpand 0 0 (T ("docs/topic-area/overview.md"))
     (by decide) (by decide) (by decide) (by decide) (by decide) (by decide)
     (by rw [show recMedian kbExpand = 1 from by decide]; norm_num)
     (by rw [show recMedian kbExpand = 1 from by decide,
           show (alGet (recReadCounts kbExpand)
             (T ("docs/topic-area/overview.md"))).getD 0 = 3 from by decide]
         norm_num)⟩

/-- C6 counterexample: a knowledge base whose median read count is zero.
The overview document has depth `overview`, five reads (more than twice the
median), and is not claimed by `stale_high_use`, yet `generate_recommendations`
reports with no `expand_depth` recommendation at all — the code additionally
requires `median_reads > 0`. -/
theorem expand_depth_median_zero_counterexample :
    (alGet (recDepths kbMedianZero) (T ("docs/topic-area/overview.md"))).getD
      (FMVal.vstr []) = FMVal.vstr (T ("overview")) ∧
    (T ("docs/topic-area/overview.md")) ∉ (recSt1 kbMedianZero).2 ∧
    2 * recMedian kbMedianZero <
      (((alGet (recReadCounts kbMedianZero)
        (T ("docs/topic-area/overview.md"))).getD 0 : Nat) : ℚ) ∧
    recMedian kbMedianZero = 0 ∧
    (match generateRecommendations kbMedianZero 0 0 with
     | RecResult.report recs _ =>
       (recs.filter (fun r => r.rkind == T ("expand_depth"))).isEmpty
     | RecResult.skipped _ => false) = true := by
  refine ⟨by decide, by decide, ?_, by decide, by decide⟩
  rw [show recMedian kbMedianZero = 0 from by decide,
    show (alGet (recReadCounts kbMedianZero)
      (T ("docs/topic-area/overview.md"))).getD 0 = 5 from by decide]
  norm_num

lemma sum_alSet_incr (m : List (Txt × Nat)) (k : Txt) :
    ((alSet m k ((alGet m k).getD 0 + 1)).map Prod.snd).sum =
      (m.map Prod.snd).sum + 1 := by
  induction m with
  | nil => simp [alSet, alGet]
  | cons p rest ih =>
    by_cases hp : p.1 == k
    · show ((alSet (p :: rest) k ((alGet (p :: rest) k).getD 0 + 1)).map Prod.snd).sum = _
      unfold alSet alGet
      simp only [hp, if_true]
      simp [Nat.add_assoc, Nat.add_comm, Nat.add_left_comm]
    · show ((alSet (p :: rest) k ((alGet (p :: rest) k).getD 0 + 1)).map Prod.snd).sum = _
      unfold alSet alGet
      simp only [hp, Bool.false_eq_true, if_false]
      simp only [List.map_cons, List.sum_cons]
      rw [ih]
      omega

lemma sum_byCategory_fold (recs : List Rec) :
    ∀ m0 : List (Txt × Nat),
      ((recs.foldl (fun m r => alSet m r.rkind ((alGet m r.rkind).getD 0 + 1)) m0).map
        Prod.snd).sum = (m0.map Prod.snd).sum + recs.length := by
  induction recs with
  | nil => intro m0; simp
  | cons r rs ih =>
    intro m0
    rw [List.foldl_cons, ih, sum_alSet_incr]
    simp [Nat.add_assoc, Nat.add_comm, Nat.add_left_comm]

lemma sum_recByCategory (kb : KB) :
    ((recByCategory kb).map Prod.snd).sum = (recRecs kb).length := by
  unfold recByCategory
  rw [sum_byCategory_fold]
  simp

/-- The running invariant of the four priority passes: the claimed list is
exactly the files of the recommendations, without duplicates. -/
def RecInv (st : List Rec × List Txt) : Prop :=
  st.1.map Rec.rfile = st.2 ∧ st.2.Nodup

lemma recInv_append (st : List Rec × List Txt) (r : Rec) (x : Txt)
    (hinv : RecInv st) (hfile : r.rfile = x) (hx : x ∉ st.2) :
    RecInv (st.1 ++ [r], st.2 ++ [x]) := by
  obtain ⟨h1, h2⟩ := hinv
  constructor
  · simp only [List.map_append, List.map_cons, List.map_nil, hfile, h1]
  · exact h2.append (List.nodup_singleton x)
      (fun y hy hmem => by
        rw [List.mem_singleton] at hmem
        exact hx (hmem ▸ hy))

lemma recInv_st1 (kb : KB) : RecInv (recSt1 kb) := by
  unfold recSt1
  have hgen : ∀ (keys : List Txt) (st0 : List Rec × List Txt),
      keys.Nodup → RecInv st0 → (∀ x ∈ keys, x ∉ st0.2) →
      RecInv (keys.foldl (fun (st : List Rec × List Txt) rel =>
        if (recStale kb).contains rel then
          let reads := (alGet (recReadCounts kb) rel).getD 0
          (st.1 ++ [⟨rel, T ("stale_high_use"),
            T ("Read ") ++ natTxt reads ++
            T (" times but content is stale -- prioritize freshening"),
            [(T ("read_count"), DVal.dn reads),
             (T ("depth"), DVal.dfm ((alGet (recDepths kb) rel).getD (FMVal.vstr []))),
             (T ("area"), DVal.dt (relAreaName rel))]⟩],
           st.2 ++ [rel])
        else st) st0) := by
    intro keys
    induction keys with
    | nil => intro st0 _ hinv _; exact hinv
    | cons k ks ih =>
      intro st0 hnodup hinv hfresh
      rw [List.foldl_cons]
      have hnd2 := List.nodup_cons.mp hnodup
      by_cases hs : (recStale kb).contains k
      · simp only [hs, if_true]
        refine ih _ hnd2.2 (recInv_append st0 _ k hinv rfl (hfresh k (by simp))) ?_
        intro x hx hmem
        rcases List.mem_append.mp hmem with hm | hm
        · exact hfresh x (List.mem_cons.mpr (Or.inr hx)) hm
        · rw [List.mem_singleton] at hm
          exact hnd2.1 (hm ▸ hx)
      · simp only [hs, Bool.false_eq_true, if_false]
        exact ih _ hnd2.2 hinv (fun x hx => hfresh x (List.mem_cons.mpr (Or.inr hx)))
  refine hgen (recKeys kb) ([], []) (nodup_recKeys kb) ⟨rfl, List.nodup_nil⟩ ?_
  intro x _ hmem
  simp at hmem

lemma recInv_guarded_step (st : List Rec × List Txt) (r : Rec) (x : Txt)
    (hinv : RecInv st) (hfile : r.rfile = x) (hc : st.2.contains x = false) :
    RecInv (st.1 ++ [r], st.2 ++ [x]) := by
  refine recInv_append st r x hinv hfile ?_
  intro hmem
  rw [show (st.2.contains x) = true from List.elem_iff.mpr hmem] at hc
  exact absurd hc (by simp)

lemma recInv_st2 (kb : KB) : RecInv (recSt2 kb) := by
  unfold recSt2
  have hstep : ∀ (st : List Rec × List Txt) rel, RecInv st →
      RecInv (recSt2Step kb st rel) := by
    intro st rel hinv
    unfold recSt2Step
    by_cases h1 : st.2.contains rel
    · simp only [h1, if_true]
      exact hinv
    · simp only [h1, Bool.false_eq_true, if_false]
      by_cases h2 : (!((alGet (recDepths kb) rel).getD (FMVal.vstr []) ==
          FMVal.vstr (T ("overview")))) = true
      · simp only [h2, if_true]
        exact hinv
      · simp only [h2, Bool.false_eq_true, if_false]
        by_cases h3 : (decide (0 < recMedian kb) &&
            decide (2 * recMedian kb <
              (((alGet (recReadCounts kb) rel).getD 0 : Nat) : ℚ))) = true
        · show RecInv (if (decide (0 < recMedian kb) &&
              decide (2 * recMedian kb <
                (((alGet (recReadCounts kb) rel).getD 0 : Nat) : ℚ))) = true
              then (st.1 ++ [expandRec kb rel], st.2 ++ [rel]) else st)
          rw [if_pos h3]
          exact recInv_guarded_step st _ rel hinv rfl (by simpa using h1)
        · show RecInv (if (decide (0 < recMedian kb) &&
              decide (2 * recMedian kb <
                (((alGet (recReadCounts kb) rel).getD 0 : Nat) : ℚ))) = true
              then (st.1 ++ [expandRec kb rel], st.2 ++ [rel]) else st)
          rw [if_neg h3]
          exact hinv
  have hfold : ∀ (keys : List Txt) (st0 : List Rec × List Txt), RecInv st0 →
      RecInv (keys.foldl (recSt2Step kb) st0) := by
    intro keys
    induction keys with
    | nil => intro st0 h; exact h
    | cons k ks ih =>
      intro st0 h
      rw [List.foldl_cons]
      exact ih _ (hstep st0 k h)
  exact hfold (recKeys kb) (recSt1 kb) (recInv_st1 kb)

lemma recInv_fold_guarded {γ : Type}
    (step : (List Rec × List Txt) → γ → (List Rec × List Txt))
    (hstep : ∀ st x, RecInv st → RecInv (step st x)) (l : List γ) :
    ∀ st0, RecInv st0 → RecInv (l.foldl step st0) := by
  induction l with
  | nil => intro st0 h; exact h
  | cons x xs ih =>
    intro st0 h
    rw [List.foldl_cons]
    exact ih _ (hstep st0 x h)

lemma recInv_st3 (kb : KB) : RecInv (recSt3 kb) := by
  unfold recSt3
  refine recInv_fold_guarded _ ?_ _ _ (recInv_st2 kb)
  intro st ap hinv
  show RecInv (if ap.2.overviewReads < LOW_UTIL_MIN_OVERVIEW_READS then st
    else (sortLe (fun (a b : Txt × (Nat × Bool)) => txtLeB a.1 b.1) ap.2.afiles).foldl
      (fun st2 fp =>
        if st2.2.contains fp.1 then st2
        else if fp.2.2 then st2
        else if (fp.2.1 : ℚ) < (ap.2.overviewReads : ℚ) * ((1 : ℚ)/10) then
          (st2.1 ++ [⟨fp.1, T ("low_utilization"),
            T ("Read ") ++ natTxt fp.2.1 ++ T (" times vs ") ++
            natTxt ap.2.overviewReads ++ T (" for ") ++ ap.1 ++
            T (" overview -- consider demoting or merging"),
            [(T ("read_count"), DVal.dn fp.2.1),
             (T ("overview_reads"), DVal.dn ap.2.overviewReads),
             (T ("depth"), DVal.dfm ((alGet (recDepths kb) fp.1).getD (FMVal.vstr []))),
             (T ("area"), DVal.dt ap.1)]⟩],
           st2.2 ++ [fp.1])
        else st2) st)
  by_cases h1 : ap.2.overviewReads < LOW_UTIL_MIN_OVERVIEW_READS
  · rw [if_pos h1]
    exact hinv
  · rw [if_neg h1]
    refine recInv_fold_guarded _ ?_ _ _ hinv
    intro st2 fp hinv2
    by_cases h2 : st2.2.contains fp.1
    · simp only [h2, if_true]
      exact hinv2
    · simp only [h2, Bool.false_eq_true, if_false]
      by_cases h3 : fp.2.2
      · simp only [h3, if_true]
        exact hinv2
      · simp only [h3, Bool.false_eq_true, if_false]
        by_cases h4 : (fp.2.1 : ℚ) < (ap.2.overviewReads : ℚ) * ((1 : ℚ)/10)
        · rw [if_pos h4]
          exact recInv_guarded_step st2 _ fp.1 hinv2 rfl (by simpa using h2)
        · rw [if_neg h4]
          exact hinv2

lemma recInv_st4 (kb : KB) : RecInv (recSt4 kb) := by
  unfold recSt4
  refine recInv_fold_guarded _ ?_ _ _ (recInv_st3 kb)
  intro st rel hinv
  by_cases h1 : st.2.contains rel
  · simp only [h1, if_true]
    exact hinv
  · simp only [h1, Bool.false_eq_true, if_false]
    by_cases h2 : ((alGet (recReadCounts kb) rel).getD 0 == 0) = true
    · simp only [h2, if_true]
      exact recInv_guarded_step st _ rel hinv rfl (by simpa using h1)
    · simp only [h2, Bool.false_eq_true, if_false]
      exact hinv

/-- C2: recommendation classification is a partition — whenever
`generate_recommendations` passes the gate and reports, no discovered
document receives two recommendations (the recommendation files are
pairwise distinct, so the four category file sets are pairwise disjoint),
and the `by_category` counts of the summary sum to the length of the
recommendations list. -/
theorem recommendation_partition (kb : KB) (minReads minDays : Int)
    (recs : List Rec) (summary : RecSummary)
    (h : generateRecommendations kb minReads minDays =
      RecResult.report recs summary) :
    (recs.map Rec.rfile).Nodup ∧
    (summary.byCategory.map Prod.snd).sum = recs.length := by
  rw [generateRecommendations_eq] at h
  by_cases h1 : ((readUtilization kb).isEmpty ||
      decide ((recTotalReads kb : Int) < minReads)) = true
  · rw [if_pos h1] at h
    exact absurd h (by simp)
  · rw [if_neg h1] at h
    by_cases h2 : recDspan kb < minDays
    · rw [if_pos h2] at h
      exact absurd h (by simp)
    · rw [if_neg h2] at h
      have hrecs : recRecs kb = recs := by
        injection h
      have hsum : summary.byCategory = recByCategory kb := by
        injection h with h3 h4
        rw [← h4]
      constructor
      · rw [← hrecs]
        have hinv := recInv_st4 kb
        obtain ⟨he, hn⟩ := hinv
        show ((recSt4 kb).1.map Rec.rfile).Nodup
        rw [he]
        exact hn
      · rw [hsum, ← hrecs]
        exact sum_recByCategory kb

/-- C2 witness: a concrete reporting run — the recommendation files are
distinct and the by-category counts add up. -/
theorem recommendation_partition_witness :
    generateRecommendations kbMedianZero 0 0 =
      RecResult.report (recRecs kbMedianZero)
        ⟨(recFilePaths kbMedianZero).length, (recRecs kbMedianZero).length,
         recByCategory kbMedianZero⟩ ∧
    (((recRecs kbMedianZero).map Rec.rfile).Nodup ∧
     ((recByCategory kbMedianZero).map Prod.snd).sum =
       (recRecs kbMedianZero).length) :=
  ⟨by decide,
   recommendation_partition kbMedianZero 0 0 (recRecs kbMedianZero)
     ⟨(recFilePaths kbMedianZero).length, (recRecs kbMedianZero).length,
      recByCategory kbMedianZero⟩ (by decide)⟩

end SCS
